import Mathlib

/-!
Verification development for the FlowchartToPascal repository
(`backend/lexer.py`, `backend/parser.py`, `backend/sema.py`,
`backend/code_generator.py`, `backend/constants.py`, `backend/app.py`).

The Python sources are shallowly embedded: strings become `List Char`,
the scanner's mutable object state becomes an explicit record threaded
through pure functions, and the two unbounded loops (the scanner's main
loop and the recursive-descent parser) take an explicit fuel argument
whose sufficiency is proved.  Python's Unicode-aware character
predicates (`str.isalpha`, `str.lower`, ...) are embedded restricted to
the ASCII and Cyrillic ranges, which are the only character classes this
code base manipulates (keywords are ASCII; payload markers and
diagnostic text are Cyrillic).
-/

namespace FlowPas

/-- The NUL sentinel the scanner appends to its input. -/
def nulChar : Char := Char.ofNat 0

/-- Single-quote character (written via its code point). -/
def squote : Char := Char.ofNat 39

/-- Python `str.isspace` on the characters handled by this code base. -/
def pyIsSpace (c : Char) : Bool :=
  c = ' ' || c = '\t' || c = '\n' || c = '\r' || c = Char.ofNat 11 || c = Char.ofNat 12

def isAsciiLetter (c : Char) : Bool :=
  ('a' ≤ c && c ≤ 'z') || ('A' ≤ c && c ≤ 'Z')

def isAsciiDigit (c : Char) : Bool := '0' ≤ c && c ≤ '9'

/-- Cyrillic block U+0400..U+04FF; `str.isalpha` is true on it. -/
def isCyrillic (c : Char) : Bool :=
  decide (0x400 ≤ c.toNat) && decide (c.toNat ≤ 0x4FF)

/-- Python `str.isalpha`, restricted to ASCII + Cyrillic. -/
def pyIsAlpha (c : Char) : Bool := isAsciiLetter c || isCyrillic c

/-- Python `str.isalnum`, restricted to ASCII + Cyrillic. -/
def pyIsAlnum (c : Char) : Bool := pyIsAlpha c || isAsciiDigit c

/-- Characters accepted inside a scanner word:
`self.current_char.isalnum() or self.current_char in ['@', '_', '-']`. -/
def isWordChar (c : Char) : Bool :=
  pyIsAlnum c || c = '@' || c = '_' || c = '-'

/-- Python `\w` (Unicode word character) on the alphabet used here. -/
def pyWordChar (c : Char) : Bool := pyIsAlnum c || c = '_'

/-- First character of the regex identifier class `[a-zA-Z_]`. -/
def isIdentStart (c : Char) : Bool := isAsciiLetter c || c = '_'

/-- Continuation character of the regex class `[a-zA-Z0-9_]`. -/
def isIdentChar (c : Char) : Bool := isAsciiLetter c || isAsciiDigit c || c = '_'

/-- Python `str.lower` on ASCII + Cyrillic. -/
def pyLowerChar (c : Char) : Char :=
  if 'A' ≤ c ∧ c ≤ 'Z' then Char.ofNat (c.toNat + 32)
  else if 0x410 ≤ c.toNat ∧ c.toNat ≤ 0x42F then Char.ofNat (c.toNat + 32)
  else if c.toNat = 0x401 then Char.ofNat 0x451
  else c

def pyLower (s : List Char) : List Char := s.map pyLowerChar

/-- Python `str.upper` on ASCII + Cyrillic. -/
def pyUpperChar (c : Char) : Char :=
  if 'a' ≤ c ∧ c ≤ 'z' then Char.ofNat (c.toNat - 32)
  else if 0x430 ≤ c.toNat ∧ c.toNat ≤ 0x44F then Char.ofNat (c.toNat - 32)
  else if c.toNat = 0x451 then Char.ofNat 0x401
  else c

def pyUpper (s : List Char) : List Char := s.map pyUpperChar

/-- Python `str.lstrip()` (no argument: strips whitespace). -/
def pyLstrip (s : List Char) : List Char := s.dropWhile pyIsSpace

/-- Python `str.rstrip()`. -/
def pyRstrip (s : List Char) : List Char := (s.reverse.dropWhile pyIsSpace).reverse

/-- Python `str.strip()`. -/
def pyStrip (s : List Char) : List Char := pyRstrip (pyLstrip s)

/-- Decimal rendering of a natural number (Python `str(n)` for `n ≥ 0`). -/
def natToChars (n : Nat) : List Char := Nat.toDigits 10 n

/-- Decimal rendering of an integer (Python `str(n)`). -/
def intToChars (n : Int) : List Char :=
  if n < 0 then '-' :: natToChars n.natAbs else natToChars n.natAbs

/-- Python `sep.join(parts)`. -/
def joinSep (sep : List Char) : List (List Char) → List Char
  | [] => []
  | [p] => p
  | p :: rest => p ++ sep ++ joinSep sep rest

theorem length_dropWhile_le' (p : Char → Bool) (l : List Char) :
    (l.dropWhile p).length ≤ l.length :=
  (List.dropWhile_sublist p).length_le

/-- Python `str.replace(pat, rep)`: all non-overlapping occurrences,
left to right (`pat` assumed non-empty, as at every call site).  The
fuel argument of the worker only instruments termination: it is one unit
per remaining character, which the match-skip case (`pat` non-empty)
never exhausts. -/
def pyReplaceF : Nat → List Char → List Char → List Char → List Char
  | 0, s, _, _ => s
  | _ + 1, [], _, _ => []
  | n + 1, c :: rest, pat, rep =>
    if pat ≠ [] ∧ pat.isPrefixOf (c :: rest) then
      rep ++ pyReplaceF n ((c :: rest).drop pat.length) pat rep
    else
      c :: pyReplaceF n rest pat rep

def pyReplace (s pat rep : List Char) : List Char := pyReplaceF s.length s pat rep

/-! ## Scanner (`backend/lexer.py`, class `PlantUMLLexer`)

State of the scanner.  `current_char` is not stored: in the Python class
it always equals `source[position]` when `position < len(source)` and
`'\0'` otherwise (both the constructor and every assignment maintain
this), so it is derived via `currentChar`.  The `ChainHashMap` side
tables (`identifier_table` / `constant_table`) duplicate the
`identifiers` / `constants` dicts and are never read back by the
pipeline, so only the dicts are modelled (as insertion-ordered
association lists, like Python dicts). -/

structure Token where
  cls : Nat
  value : Nat
  text : List Char
  line : Nat
  pos : Nat
deriving DecidableEq, Repr

structure LexState where
  source : List Char
  position : Nat
  lineNum : Nat
  charPos : Nat
  identifiers : List (List Char × Nat)
  idCounter : Nat
  constants : List (List Char × Nat)
  constCounter : Nat
  lexTable : List Token
  errors : List (List Char)
deriving DecidableEq, Repr

/-- The scanner's `current_char`. -/
def currentChar (st : LexState) : Char := st.source.getD st.position nulChar

/-- `PlantUMLLexer.advance`. -/
def advance (st : LexState) : LexState :=
  if currentChar st = '\n' then
    { st with lineNum := st.lineNum + 1, charPos := 0, position := st.position + 1 }
  else
    { st with charPos := st.charPos + 1, position := st.position + 1 }

@[simp] theorem advance_source (st : LexState) : (advance st).source = st.source := by
  unfold advance; split <;> rfl

@[simp] theorem advance_position (st : LexState) : (advance st).position = st.position + 1 := by
  unfold advance; split <;> rfl

theorem position_lt_of_currentChar_ne_nul {st : LexState}
    (h : currentChar st ≠ nulChar) : st.position < st.source.length := by
  by_contra hlt
  apply h
  unfold currentChar
  rw [List.getD_eq_default]
  omega

/-- `PlantUMLLexer.skip_whitespace`, with one unit of fuel per
character between the position and the end of the source (the loop
advances once per unit; `skipWs_eq` below shows the fuel never runs
out). -/
def skipWsF : Nat → LexState → LexState
  | 0, st => st
  | n + 1, st =>
    if currentChar st ≠ nulChar ∧ pyIsSpace (currentChar st) then skipWsF n (advance st) else st

def skipWs (st : LexState) : LexState := skipWsF (st.source.length - st.position) st

theorem skipWsF_congr (n m : Nat) (st : LexState)
    (hn : st.source.length - st.position ≤ n) (hm : st.source.length - st.position ≤ m) :
    skipWsF n st = skipWsF m st := by
  induction n generalizing m st with
  | zero =>
    cases m with
    | zero => rfl
    | succ m =>
      show skipWsF 0 st = skipWsF (m + 1) st
      rw [skipWsF, skipWsF, if_neg]
      intro hc
      have := position_lt_of_currentChar_ne_nul hc.1
      omega
  | succ n ih =>
    cases m with
    | zero =>
      show skipWsF (n + 1) st = skipWsF 0 st
      rw [skipWsF, skipWsF, if_neg]
      intro hc
      have := position_lt_of_currentChar_ne_nul hc.1
      omega
    | succ m =>
      rw [skipWsF, skipWsF]
      split
      · rename_i hc
        have := position_lt_of_currentChar_ne_nul hc.1
        apply ih <;> simp only [advance_source, advance_position] <;> omega
      · rfl

/-- The loop equation of `skip_whitespace`. -/
theorem skipWs_eq (st : LexState) :
    skipWs st =
      if currentChar st ≠ nulChar ∧ pyIsSpace (currentChar st) then skipWs (advance st) else st := by
  unfold skipWs
  by_cases hc : currentChar st ≠ nulChar ∧ pyIsSpace (currentChar st)
  · have hlt := position_lt_of_currentChar_ne_nul hc.1
    rw [if_pos hc]
    have h1 : st.source.length - st.position = (st.source.length - st.position - 1) + 1 := by omega
    rw [h1, skipWsF, if_pos hc]
    apply skipWsF_congr <;> simp only [advance_source, advance_position] <;> omega
  · rw [if_neg hc]
    cases hh : st.source.length - st.position with
    | zero => rfl
    | succ k => rw [skipWsF, if_neg hc]

theorem currentChar_ne_nul_of_isWordChar {st : LexState}
    (h : isWordChar (currentChar st)) : currentChar st ≠ nulChar := by
  intro hn
  rw [hn] at h
  simp [isWordChar, pyIsAlnum, pyIsAlpha, isAsciiLetter, isCyrillic, isAsciiDigit, nulChar] at h

/-- The word-collecting loop of `PlantUMLLexer.scan`
(`while self.current_char.isalnum() or self.current_char in ...`),
returning the collected buffer and the state after it (fuel as in
`skipWs`). -/
def collectWordF : Nat → LexState → List Char × LexState
  | 0, st => ([], st)
  | n + 1, st =>
    if isWordChar (currentChar st) then
      let r := collectWordF n (advance st)
      (currentChar st :: r.1, r.2)
    else ([], st)

def collectWord (st : LexState) : List Char × LexState :=
  collectWordF (st.source.length - st.position) st

theorem collectWordF_congr (n m : Nat) (st : LexState)
    (hn : st.source.length - st.position ≤ n) (hm : st.source.length - st.position ≤ m) :
    collectWordF n st = collectWordF m st := by
  induction n generalizing m st with
  | zero =>
    cases m with
    | zero => rfl
    | succ m =>
      show collectWordF 0 st = collectWordF (m + 1) st
      rw [collectWordF, collectWordF, if_neg]
      intro hc
      have := position_lt_of_currentChar_ne_nul (currentChar_ne_nul_of_isWordChar hc)
      omega
  | succ n ih =>
    cases m with
    | zero =>
      show collectWordF (n + 1) st = collectWordF 0 st
      rw [collectWordF, collectWordF, if_neg]
      intro hc
      have := position_lt_of_currentChar_ne_nul (currentChar_ne_nul_of_isWordChar hc)
      omega
    | succ m =>
      rw [collectWordF, collectWordF]
      split
      · rename_i hc
        have := position_lt_of_currentChar_ne_nul (currentChar_ne_nul_of_isWordChar hc)
        have heq := ih m (advance st)
          (by simp only [advance_source, advance_position]; omega)
          (by simp only [advance_source, advance_position]; omega)
        rw [heq]
      · rfl

/-- The loop equation of the word-collecting loop. -/
theorem collectWord_eq (st : LexState) :
    collectWord st =
      if isWordChar (currentChar st) then
        ((currentChar st :: (collectWord (advance st)).1), (collectWord (advance st)).2)
      else ([], st) := by
  unfold collectWord
  by_cases hc : isWordChar (currentChar st)
  · have hlt := position_lt_of_currentChar_ne_nul (currentChar_ne_nul_of_isWordChar hc)
    rw [if_pos hc]
    have h1 : st.source.length - st.position = (st.source.length - st.position - 1) + 1 := by omega
    rw [h1, collectWordF, if_pos hc]
    have heq := collectWordF_congr (st.source.length - st.position - 1)
      ((advance st).source.length - (advance st).position) (advance st)
      (by simp only [advance_source, advance_position]; omega)
      (by omega)
    rw [heq]
  · rw [if_neg hc]
    cases hh : st.source.length - st.position with
    | zero => rfl
    | succ k => rw [collectWordF, if_neg hc]

/-- The content-collecting loops of `PlantUMLLexer.scan`
(`while self.current_char != '\0' and self.current_char != stop`),
fuel as in `skipWs`. -/
def readUntilF : Nat → Char → LexState → List Char × LexState
  | 0, _, st => ([], st)
  | n + 1, stop, st =>
    if currentChar st ≠ nulChar ∧ currentChar st ≠ stop then
      let r := readUntilF n stop (advance st)
      (currentChar st :: r.1, r.2)
    else ([], st)

def readUntil (stop : Char) (st : LexState) : List Char × LexState :=
  readUntilF (st.source.length - st.position) stop st

theorem readUntilF_congr (n m : Nat) (stop : Char) (st : LexState)
    (hn : st.source.length - st.position ≤ n) (hm : st.source.length - st.position ≤ m) :
    readUntilF n stop st = readUntilF m stop st := by
  induction n generalizing m st with
  | zero =>
    cases m with
    | zero => rfl
    | succ m =>
      show readUntilF 0 stop st = readUntilF (m + 1) stop st
      rw [readUntilF, readUntilF, if_neg]
      intro hc
      have := position_lt_of_currentChar_ne_nul hc.1
      omega
  | succ n ih =>
    cases m with
    | zero =>
      show readUntilF (n + 1) stop st = readUntilF 0 stop st
      rw [readUntilF, readUntilF, if_neg]
      intro hc
      have := position_lt_of_currentChar_ne_nul hc.1
      omega
    | succ m =>
      rw [readUntilF, readUntilF]
      split
      · rename_i hc
        have := position_lt_of_currentChar_ne_nul hc.1
        have heq := ih m (advance st)
          (by simp only [advance_source, advance_position]; omega)
          (by simp only [advance_source, advance_position]; omega)
        rw [heq]
      · rfl

/-- The loop equation of the content-collecting loop. -/
theorem readUntil_eq (stop : Char) (st : LexState) :
    readUntil stop st =
      if currentChar st ≠ nulChar ∧ currentChar st ≠ stop then
        ((currentChar st :: (readUntil stop (advance st)).1), (readUntil stop (advance st)).2)
      else ([], st) := by
  unfold readUntil
  by_cases hc : currentChar st ≠ nulChar ∧ currentChar st ≠ stop
  · have hlt := position_lt_of_currentChar_ne_nul hc.1
    rw [if_pos hc]
    have h1 : st.source.length - st.position = (st.source.length - st.position - 1) + 1 := by omega
    rw [h1, readUntilF, if_pos hc]
    have heq := readUntilF_congr (st.source.length - st.position - 1)
      ((advance st).source.length - (advance st).position) stop (advance st)
      (by simp only [advance_source, advance_position]; omega)
      (by omega)
    rw [heq]
  · rw [if_neg hc]
    cases hh : st.source.length - st.position with
    | zero => rfl
    | succ k => rw [readUntilF, if_neg hc]

/-- The recovery loop of `PlantUMLLexer.error`: skip until whitespace,
a delimiter, `@`, or end of input (fuel as in `skipWs`). -/
def errorSkipCond (st : LexState) : Prop :=
  currentChar st ≠ nulChar ∧ ¬ pyIsSpace (currentChar st) ∧
    ¬ (currentChar st = '(' ∨ currentChar st = ')' ∨ currentChar st = ';' ∨
       currentChar st = ':' ∨ currentChar st = '@')

instance (st : LexState) : Decidable (errorSkipCond st) := by
  unfold errorSkipCond
  infer_instance

def errorSkipF : Nat → LexState → LexState
  | 0, st => st
  | n + 1, st => if errorSkipCond st then errorSkipF n (advance st) else st

def errorSkip (st : LexState) : LexState := errorSkipF (st.source.length - st.position) st

theorem errorSkipF_congr (n m : Nat) (st : LexState)
    (hn : st.source.length - st.position ≤ n) (hm : st.source.length - st.position ≤ m) :
    errorSkipF n st = errorSkipF m st := by
  induction n generalizing m st with
  | zero =>
    cases m with
    | zero => rfl
    | succ m =>
      show errorSkipF 0 st = errorSkipF (m + 1) st
      rw [errorSkipF, errorSkipF, if_neg]
      intro hc
      have := position_lt_of_currentChar_ne_nul hc.1
      omega
  | succ n ih =>
    cases m with
    | zero =>
      show errorSkipF (n + 1) st = errorSkipF 0 st
      rw [errorSkipF, errorSkipF, if_neg]
      intro hc
      have := position_lt_of_currentChar_ne_nul hc.1
      omega
    | succ m =>
      rw [errorSkipF, errorSkipF]
      split
      · rename_i hc
        have := position_lt_of_currentChar_ne_nul hc.1
        apply ih <;> simp only [advance_source, advance_position] <;> omega
      · rfl

/-- The loop equation of the error-recovery skip. -/
theorem errorSkip_eq (st : LexState) :
    errorSkip st = if errorSkipCond st then errorSkip (advance st) else st := by
  unfold errorSkip
  by_cases hc : errorSkipCond st
  · have hlt := position_lt_of_currentChar_ne_nul hc.1
    rw [if_pos hc]
    have h1 : st.source.length - st.position = (st.source.length - st.position - 1) + 1 := by omega
    rw [h1, errorSkipF, if_pos hc]
    apply errorSkipF_congr <;> simp only [advance_source, advance_position] <;> omega
  · rw [if_neg hc]
    cases hh : st.source.length - st.position with
    | zero => rfl
    | succ k => rw [errorSkipF, if_neg hc]

/-- `PlantUMLLexer.error`: format and record the message at the current
position, then run the recovery skip. -/
def lexError (st : LexState) (msg : List Char) : LexState :=
  let m := "Ошибка (".toList ++ natToChars st.lineNum ++ [','] ++
    natToChars st.charPos ++ "): ".toList ++ msg
  errorSkip { st with errors := st.errors ++ [m] }

/-- `PlantUMLLexer.make_token` (every call in `scan` passes the line and
position explicitly, so the defaulting branch is not modelled). -/
def makeToken (st : LexState) (cls value : Nat) (text : List Char)
    (line pos : Nat) : LexState :=
  { st with lexTable := st.lexTable ++ [⟨cls, value, text, line, pos⟩] }

/-- The keyword table (`self.keywords`). -/
def keywordsList : List (List Char × Nat) :=
  [("@startuml".toList, 1), ("start".toList, 2), ("stop".toList, 3),
   ("if".toList, 4), ("then".toList, 5), ("else".toList, 6),
   ("endif".toList, 7), ("while".toList, 8), ("is".toList, 9),
   ("endwhile".toList, 10), ("repeat".toList, 11), ("repeatwhile".toList, 12),
   ("@enduml".toList, 13)]

def keywordLookup (w : List Char) : Option Nat := keywordsList.lookup w

/-- The speculative second-word read of the compound-keyword lookahead:
collects characters with `temp_pos`/`temp_buffer` without advancing the
scanner.  (The Python loop breaks after appending when `temp_pos`
reaches the end; with the NUL sentinel terminating every source that
case coincides with this formulation.) -/
def peekWordF : Nat → List Char → Nat → List Char
  | 0, _, _ => []
  | n + 1, src, pos =>
    if isWordChar (src.getD pos nulChar) ∧ pos < src.length then
      src.getD pos nulChar :: peekWordF n src (pos + 1)
    else []

def peekWord (src : List Char) (pos : Nat) : List Char :=
  peekWordF (src.length - pos) src pos

theorem peekWordF_congr (n m : Nat) (src : List Char) (pos : Nat)
    (hn : src.length - pos ≤ n) (hm : src.length - pos ≤ m) :
    peekWordF n src pos = peekWordF m src pos := by
  induction n generalizing m pos with
  | zero =>
    cases m with
    | zero => rfl
    | succ m =>
      show peekWordF 0 src pos = peekWordF (m + 1) src pos
      rw [peekWordF, peekWordF, if_neg]
      intro hc
      omega
  | succ n ih =>
    cases m with
    | zero =>
      show peekWordF (n + 1) src pos = peekWordF 0 src pos
      rw [peekWordF, peekWordF, if_neg]
      intro hc
      omega
    | succ m =>
      rw [peekWordF, peekWordF]
      split
      · rename_i hc
        have heq := ih m (pos + 1) (by omega) (by omega)
        rw [heq]
      · rfl

/-- The loop equation of the speculative peek. -/
theorem peekWord_eq (src : List Char) (pos : Nat) :
    peekWord src pos =
      if isWordChar (src.getD pos nulChar) ∧ pos < src.length then
        src.getD pos nulChar :: peekWord src (pos + 1)
      else [] := by
  unfold peekWord
  by_cases hc : isWordChar (src.getD pos nulChar) ∧ pos < src.length
  · rw [if_pos hc]
    have h1 : src.length - pos = (src.length - pos - 1) + 1 := by omega
    rw [h1, peekWordF, if_pos hc]
    have heq := peekWordF_congr (src.length - pos - 1) (src.length - (pos + 1)) src (pos + 1)
      (by omega) (by omega)
    rw [heq]
  · rw [if_neg hc]
    cases hh : src.length - pos with
    | zero => rfl
    | succ k => rw [peekWordF, if_neg hc]

/-- Tail of the word branch: keyword lookup or "unknown keyword" error. -/
def finishWord (st : LexState) (word : List Char) (startLine startPos : Nat) : LexState :=
  match keywordLookup (pyLower word) with
  | some v => makeToken st 1 v word startLine startPos
  | none =>
      lexError st ("Неизвестное ключевое слово: '".toList ++ word ++ [squote])

/-- The keyword/identifier branch of `PlantUMLLexer.scan`, including the
`repeat while` compound-keyword lookahead.  In the confirmed case the
Python code restores `self.position` to the saved value (but not
`line_num`/`char_pos`), re-skips the whitespace and reads the second
word with `advance`. -/
def wordBranch (st : LexState) : LexState :=
  let startPos := st.charPos
  let startLine := st.lineNum
  let r := collectWord st
  let buf := r.1
  let st1 := r.2
  let w := pyStrip buf
  let wl := pyLower w
  if wl = "repeat".toList ∧ pyIsSpace (currentChar st1) then
    let savedPos := st1.position
    let st2 := skipWs st1
    if pyIsAlpha (currentChar st2) then
      let tb := peekWord st2.source st2.position
      if pyStrip (pyLower tb) = "while".toList then
        let st3 := { st2 with position := savedPos }
        let st4 := skipWs st3
        let st5 := (collectWord st4).2
        makeToken st5 1 12 "repeat while".toList startLine startPos
      else finishWord st2 w startLine startPos
    else finishWord st2 w startLine startPos
  else finishWord st1 w startLine startPos

/-- The action branch of `PlantUMLLexer.scan` (introducer `:`): emit the
delimiter, read the payload up to `;`, intern it into `identifiers`,
then require the closing `;`. -/
def colonBranch (st : LexState) : LexState :=
  let st := makeToken st 2 4 [':'] st.lineNum st.charPos
  let st := advance st
  let contentPos := st.charPos
  let contentLine := st.lineNum
  let r := readUntil ';' st
  let st := r.2
  let content := pyStrip r.1
  let st :=
    if content ≠ [] then
      match st.identifiers.lookup content with
      | some idn => makeToken st 4 idn content contentLine contentPos
      | none =>
          let idn := st.idCounter
          let st := { st with identifiers := st.identifiers ++ [(content, idn)],
                              idCounter := st.idCounter + 1 }
          makeToken st 4 idn content contentLine contentPos
    else st
  if currentChar st = ';' then
    advance (makeToken st 2 3 [';'] st.lineNum st.charPos)
  else lexError st "Ожидается ';' в конце действия".toList

/-- The condition branch of `PlantUMLLexer.scan` (introducer `(`). -/
def parenBranch (st : LexState) : LexState :=
  let st := makeToken st 2 1 ['('] st.lineNum st.charPos
  let st := advance st
  let contentPos := st.charPos
  let contentLine := st.lineNum
  let r := readUntil ')' st
  let st := r.2
  let content := pyStrip r.1
  let st :=
    if content ≠ [] then
      match st.constants.lookup content with
      | some cn => makeToken st 5 cn content contentLine contentPos
      | none =>
          let cn := st.constCounter
          let st := { st with constants := st.constants ++ [(content, cn)],
                              constCounter := st.constCounter + 1 }
          makeToken st 5 cn content contentLine contentPos
    else st
  if currentChar st = ')' then
    advance (makeToken st 2 2 [')'] st.lineNum st.charPos)
  else lexError st "Ожидается ')' в конце условия".toList

/-- One iteration of the main loop of `PlantUMLLexer.scan` (including the
leading whitespace skip and its end-of-input break). -/
def scanStep (st : LexState) : LexState :=
  let st := skipWs st
  let c := currentChar st
  if c = nulChar then st
  else if pyIsAlpha c || c = '@' then wordBranch st
  else if c = ':' then colonBranch st
  else if c = '(' then parenBranch st
  else if c = ';' then
    advance (makeToken st 2 3 [';'] st.lineNum st.charPos)
  else advance (lexError st ("Неожиданный символ: '".toList ++ [c] ++ [squote]))

/-- The main loop of `PlantUMLLexer.scan`, fuel-indexed. -/
def scanLoop : Nat → LexState → LexState
  | 0, st => st
  | n + 1, st => if currentChar st = nulChar then st else scanLoop n (scanStep st)

/-- The scanner constructor: `source_code.rstrip() + '\0'`, position 0,
line 1, column 0, empty tables, counters starting at 1. -/
def scanInit (input : List Char) : LexState :=
  { source := pyRstrip input ++ [nulChar], position := 0, lineNum := 1,
    charPos := 0, identifiers := [], idCounter := 1, constants := [],
    constCounter := 1, lexTable := [], errors := [] }

/-- `PlantUMLLexer.scan` run to completion (the fuel `source.length` is
proved sufficient below). -/
def scanFull (input : List Char) : LexState :=
  scanLoop (scanInit input).source.length (scanInit input)

/-! ### Movement and invariance lemmas for the scanner loops -/

/-- Pure cursor movement: the side tables and the source are untouched
and the cursor only moves forward. -/
def lexAdv (st st2 : LexState) : Prop :=
  st2.source = st.source ∧ st.position ≤ st2.position ∧ st.lineNum ≤ st2.lineNum ∧
  st2.identifiers = st.identifiers ∧ st2.idCounter = st.idCounter ∧
  st2.constants = st.constants ∧ st2.constCounter = st.constCounter ∧
  st2.lexTable = st.lexTable ∧ st2.errors = st.errors

theorem lexAdv_refl (st : LexState) : lexAdv st st := by
  refine ⟨rfl, ?_, ?_, rfl, rfl, rfl, rfl, rfl, rfl⟩ <;> omega

theorem lexAdv_trans {a b c : LexState} (h1 : lexAdv a b) (h2 : lexAdv b c) : lexAdv a c := by
  obtain ⟨s1, p1, l1, i1, ic1, c1, cc1, t1, e1⟩ := h1
  obtain ⟨s2, p2, l2, i2, ic2, c2, cc2, t2, e2⟩ := h2
  exact ⟨s2.trans s1, p1.trans p2, l1.trans l2, i2.trans i1, ic2.trans ic1,
    c2.trans c1, cc2.trans cc1, t2.trans t1, e2.trans e1⟩

theorem lexAdv_advance (st : LexState) : lexAdv st (advance st) := by
  unfold advance
  split <;> refine ⟨rfl, ?_, ?_, rfl, rfl, rfl, rfl, rfl, rfl⟩ <;>
    simp only [] <;> omega

theorem lexAdv_skipWsF : ∀ (n : Nat) (st : LexState), lexAdv st (skipWsF n st) := by
  intro n
  induction n with
  | zero => intro st; exact lexAdv_refl st
  | succ n ih =>
    intro st
    rw [skipWsF]
    split
    · exact lexAdv_trans (lexAdv_advance st) (ih (advance st))
    · exact lexAdv_refl st

theorem lexAdv_skipWs (st : LexState) : lexAdv st (skipWs st) := lexAdv_skipWsF _ st

theorem lexAdv_collectWordF : ∀ (n : Nat) (st : LexState), lexAdv st (collectWordF n st).2 := by
  intro n
  induction n with
  | zero => intro st; exact lexAdv_refl st
  | succ n ih =>
    intro st
    rw [collectWordF]
    split
    · exact lexAdv_trans (lexAdv_advance st) (ih (advance st))
    · exact lexAdv_refl st

theorem lexAdv_collectWord (st : LexState) : lexAdv st (collectWord st).2 :=
  lexAdv_collectWordF _ st

theorem lexAdv_readUntilF : ∀ (n : Nat) (stop : Char) (st : LexState),
    lexAdv st (readUntilF n stop st).2 := by
  intro n
  induction n with
  | zero => intro stop st; exact lexAdv_refl st
  | succ n ih =>
    intro stop st
    rw [readUntilF]
    split
    · exact lexAdv_trans (lexAdv_advance st) (ih stop (advance st))
    · exact lexAdv_refl st

theorem lexAdv_readUntil (stop : Char) (st : LexState) : lexAdv st (readUntil stop st).2 :=
  lexAdv_readUntilF _ stop st

theorem lexAdv_errorSkipF : ∀ (n : Nat) (st : LexState), lexAdv st (errorSkipF n st) := by
  intro n
  induction n with
  | zero => intro st; exact lexAdv_refl st
  | succ n ih =>
    intro st
    rw [errorSkipF]
    split
    · exact lexAdv_trans (lexAdv_advance st) (ih (advance st))
    · exact lexAdv_refl st

theorem lexAdv_errorSkip (st : LexState) : lexAdv st (errorSkip st) := lexAdv_errorSkipF _ st

/-- The collected word of the scanner equals the speculative peek at the
same source position. -/
theorem collectWordF_fst_peek : ∀ (n : Nat) (st : LexState),
    (collectWordF n st).1 = peekWordF n st.source st.position := by
  intro n
  induction n with
  | zero => intro st; rfl
  | succ n ih =>
    intro st
    rw [collectWordF, peekWordF]
    by_cases hc : isWordChar (currentChar st)
    · have hne := currentChar_ne_nul_of_isWordChar hc
      have hlt := position_lt_of_currentChar_ne_nul hne
      rw [if_pos hc, if_pos ⟨hc, hlt⟩]
      dsimp only
      rw [ih (advance st), advance_source, advance_position]
      rfl
    · rw [if_neg hc, if_neg (fun h => hc h.1)]

theorem collectWord_fst_peek (st : LexState) :
    (collectWord st).1 = peekWord st.source st.position :=
  collectWordF_fst_peek _ st

/-- The word-collecting loop advances exactly by the collected length. -/
theorem collectWordF_pos : ∀ (n : Nat) (st : LexState),
    (collectWordF n st).2.position = st.position + (collectWordF n st).1.length := by
  intro n
  induction n with
  | zero => intro st; rfl
  | succ n ih =>
    intro st
    rw [collectWordF]
    split
    · dsimp only
      rw [ih (advance st), advance_position]
      simp only [List.length_cons]
      omega
    · rfl

theorem collectWord_pos (st : LexState) :
    (collectWord st).2.position = st.position + (collectWord st).1.length :=
  collectWordF_pos _ st

/-- The whitespace skip moves the cursor by an amount that depends only
on the source and the start position. -/
theorem skipWsF_pos_congr : ∀ (n : Nat) (st st2 : LexState),
    st2.source = st.source → st2.position = st.position →
    (skipWsF n st2).position = (skipWsF n st).position := by
  intro n
  induction n with
  | zero => intro st st2 _ hp; exact hp
  | succ n ih =>
    intro st st2 hs hp
    have hcc : currentChar st2 = currentChar st := by
      unfold currentChar
      rw [hs, hp]
    rw [skipWsF, skipWsF]
    by_cases hc : currentChar st ≠ nulChar ∧ pyIsSpace (currentChar st)
    · rw [if_pos hc, if_pos (by rw [hcc]; exact hc)]
      exact ih (advance st) (advance st2) (by rw [advance_source, advance_source, hs])
        (by rw [advance_position, advance_position, hp])
    · rw [if_neg hc, if_neg (by rw [hcc]; exact hc)]
      exact hp

theorem skipWs_pos_congr (st st2 : LexState)
    (hs : st2.source = st.source) (hp : st2.position = st.position) :
    (skipWs st2).position = (skipWs st).position := by
  unfold skipWs
  rw [hs, hp]
  exact skipWsF_pos_congr _ st st2 hs hp

/-- Same for the word collector (word and movement). -/
theorem collectWordF_congr2 : ∀ (n : Nat) (st st2 : LexState),
    st2.source = st.source → st2.position = st.position →
    (collectWordF n st2).1 = (collectWordF n st).1 := by
  intro n st st2 hs hp
  rw [collectWordF_fst_peek, collectWordF_fst_peek, hs, hp]

/-! ### Line numbering: every emitted token carries a line `≥ 1` -/

/-- The line-number invariant of the scanner: the current line counter
is at least 1 and every token already in the table carries a line at
least 1. -/
def linesOk (st : LexState) : Prop :=
  1 ≤ st.lineNum ∧ ∀ t ∈ st.lexTable, 1 ≤ t.line

theorem linesOk_lexAdv_of {st st2 : LexState} (h : linesOk st) (ha : lexAdv st st2) :
    linesOk st2 := by
  obtain ⟨-, -, hl, -, -, -, -, ht, -⟩ := ha
  exact ⟨le_trans h.1 hl, by rw [ht]; exact h.2⟩

theorem linesOk_advance_of {st : LexState} (h : linesOk st) : linesOk (advance st) :=
  linesOk_lexAdv_of h (lexAdv_advance st)

theorem linesOk_skipWs_of {st : LexState} (h : linesOk st) : linesOk (skipWs st) :=
  linesOk_lexAdv_of h (lexAdv_skipWs st)

theorem linesOk_collectWord_of {st : LexState} (h : linesOk st) :
    linesOk (collectWord st).2 :=
  linesOk_lexAdv_of h (lexAdv_collectWord st)

theorem linesOk_readUntil_of {st : LexState} (h : linesOk st) (stop : Char) :
    linesOk (readUntil stop st).2 :=
  linesOk_lexAdv_of h (lexAdv_readUntil stop st)

theorem linesOk_makeToken_of {st : LexState} (h : linesOk st)
    (cls v : Nat) (tx : List Char) {line : Nat} (pos : Nat) (hl : 1 ≤ line) :
    linesOk (makeToken st cls v tx line pos) := by
  refine ⟨h.1, ?_⟩
  intro t ht
  simp only [makeToken] at ht
  rcases List.mem_append.1 ht with hin | hnew
  · exact h.2 t hin
  · rw [List.mem_singleton.1 hnew]
    exact hl

theorem linesOk_errorsUpdate_skip {st : LexState} (h : linesOk st) (e : List (List Char)) :
    linesOk (errorSkip { st with errors := e }) :=
  @linesOk_lexAdv_of { st with errors := e } _ ⟨h.1, h.2⟩ (lexAdv_errorSkip _)

theorem linesOk_lexError_of {st : LexState} (h : linesOk st) (m : List Char) :
    linesOk (lexError st m) :=
  linesOk_errorsUpdate_skip h _

theorem linesOk_internUpdate {st : LexState} (h : linesOk st)
    (ids : List (List Char × Nat)) (k : Nat) :
    linesOk { st with identifiers := ids, idCounter := k } := ⟨h.1, h.2⟩

theorem linesOk_constUpdate {st : LexState} (h : linesOk st)
    (cs : List (List Char × Nat)) (k : Nat) :
    linesOk { st with constants := cs, constCounter := k } := ⟨h.1, h.2⟩

theorem linesOk_finishWord_of {st : LexState} (h : linesOk st)
    (w : List Char) {line : Nat} (pos : Nat) (hl : 1 ≤ line) :
    linesOk (finishWord st w line pos) := by
  unfold finishWord
  split
  · exact linesOk_makeToken_of h _ _ _ _ hl
  · exact linesOk_lexError_of h _

theorem linesOk_wordBranch_of {st : LexState} (h : linesOk st) :
    linesOk (wordBranch st) := by
  have h1 : linesOk (collectWord st).2 := linesOk_collectWord_of h
  have h2 : linesOk (skipWs (collectWord st).2) := linesOk_skipWs_of h1
  simp only [wordBranch]
  split
  · split
    · split
      · refine linesOk_makeToken_of ?_ _ _ _ _ h.1
        refine linesOk_collectWord_of (linesOk_skipWs_of ?_)
        exact ⟨h2.1, h2.2⟩
      · exact linesOk_finishWord_of h2 _ _ h.1
    · exact linesOk_finishWord_of h2 _ _ h.1
  · exact linesOk_finishWord_of h1 _ _ h.1

set_option maxHeartbeats 2000000 in
theorem linesOk_colonBranch_of {st : LexState} (h : linesOk st) :
    linesOk (colonBranch st) := by
  have h1 : linesOk (makeToken st 2 4 [':'] st.lineNum st.charPos) :=
    linesOk_makeToken_of h _ _ _ _ h.1
  have h2 : linesOk (advance (makeToken st 2 4 [':'] st.lineNum st.charPos)) :=
    linesOk_advance_of h1
  have h3 : linesOk (readUntil ';' (advance (makeToken st 2 4 [':'] st.lineNum st.charPos))).2 :=
    linesOk_readUntil_of h2 ';'
  simp only [colonBranch]
  repeat' split
  · exact linesOk_advance_of
      (linesOk_makeToken_of (linesOk_makeToken_of h3 _ _ _ _ h2.1) _ _ _ _ h3.1)
  · exact linesOk_advance_of
      (linesOk_makeToken_of (linesOk_makeToken_of (linesOk_internUpdate h3 _ _) _ _ _ _ h2.1)
        _ _ _ _ h3.1)
  · exact linesOk_lexError_of (linesOk_makeToken_of h3 _ _ _ _ h2.1) _
  · exact linesOk_lexError_of (linesOk_makeToken_of (linesOk_internUpdate h3 _ _) _ _ _ _ h2.1) _
  · exact linesOk_advance_of (linesOk_makeToken_of h3 _ _ _ _ h3.1)
  · exact linesOk_lexError_of h3 _

set_option maxHeartbeats 2000000 in
theorem linesOk_parenBranch_of {st : LexState} (h : linesOk st) :
    linesOk (parenBranch st) := by
  have h1 : linesOk (makeToken st 2 1 ['('] st.lineNum st.charPos) :=
    linesOk_makeToken_of h _ _ _ _ h.1
  have h2 : linesOk (advance (makeToken st 2 1 ['('] st.lineNum st.charPos)) :=
    linesOk_advance_of h1
  have h3 : linesOk (readUntil ')' (advance (makeToken st 2 1 ['('] st.lineNum st.charPos))).2 :=
    linesOk_readUntil_of h2 ')'
  simp only [parenBranch]
  repeat' split
  · exact linesOk_advance_of
      (linesOk_makeToken_of (linesOk_makeToken_of h3 _ _ _ _ h2.1) _ _ _ _ h3.1)
  · exact linesOk_advance_of
      (linesOk_makeToken_of (linesOk_makeToken_of (linesOk_constUpdate h3 _ _) _ _ _ _ h2.1)
        _ _ _ _ h3.1)
  · exact linesOk_lexError_of (linesOk_makeToken_of h3 _ _ _ _ h2.1) _
  · exact linesOk_lexError_of (linesOk_makeToken_of (linesOk_constUpdate h3 _ _) _ _ _ _ h2.1) _
  · exact linesOk_advance_of (linesOk_makeToken_of h3 _ _ _ _ h3.1)
  · exact linesOk_lexError_of h3 _

theorem linesOk_scanStep_of {st : LexState} (h : linesOk st) : linesOk (scanStep st) := by
  have h1 : linesOk (skipWs st) := linesOk_skipWs_of h
  simp only [scanStep]
  split
  · exact h1
  · split
    · exact linesOk_wordBranch_of h1
    · split
      · exact linesOk_colonBranch_of h1
      · split
        · exact linesOk_parenBranch_of h1
        · split
          · exact linesOk_advance_of (linesOk_makeToken_of h1 _ _ _ _ h1.1)
          · exact linesOk_advance_of (linesOk_lexError_of h1 _)

theorem linesOk_scanLoop : ∀ (n : Nat) (st : LexState), linesOk st → linesOk (scanLoop n st) := by
  intro n
  induction n with
  | zero => intro st h; exact h
  | succ n ih =>
    intro st h
    rw [scanLoop]
    split
    · exact h
    · exact ih (scanStep st) (linesOk_scanStep_of h)

theorem linesOk_scanFull (input : List Char) : linesOk (scanFull input) := by
  unfold scanFull
  refine linesOk_scanLoop _ _ ⟨?_, ?_⟩
  · exact le_refl 1
  · intro t ht
    simp [scanInit] at ht

/-! ### Progress: the scanner always reaches the end of its input -/

theorem skipWs_source (st : LexState) : (skipWs st).source = st.source :=
  (lexAdv_skipWs st).1

theorem collectWord_source (st : LexState) : (collectWord st).2.source = st.source :=
  (lexAdv_collectWord st).1

theorem readUntil_source (stop : Char) (st : LexState) :
    (readUntil stop st).2.source = st.source :=
  (lexAdv_readUntil stop st).1

theorem makeToken_source (st : LexState) (cls v : Nat) (tx : List Char) (l p : Nat) :
    (makeToken st cls v tx l p).source = st.source := rfl

theorem makeToken_position (st : LexState) (cls v : Nat) (tx : List Char) (l p : Nat) :
    (makeToken st cls v tx l p).position = st.position := rfl

theorem lexError_source (st : LexState) (m : List Char) :
    (lexError st m).source = st.source :=
  (lexAdv_errorSkip _).1

theorem lexError_pos_le (st : LexState) (m : List Char) :
    st.position ≤ (lexError st m).position :=
  (lexAdv_errorSkip
    { st with errors := st.errors ++
        ["Ошибка (".toList ++ natToChars st.lineNum ++ [','] ++
          natToChars st.charPos ++ "): ".toList ++ m] }).2.1

theorem skipWs_pos_le (st : LexState) : st.position ≤ (skipWs st).position :=
  (lexAdv_skipWs st).2.1

theorem collectWord_pos_le (st : LexState) : st.position ≤ (collectWord st).2.position :=
  (lexAdv_collectWord st).2.1

theorem readUntil_pos_le (stop : Char) (st : LexState) :
    st.position ≤ (readUntil stop st).2.position :=
  (lexAdv_readUntil stop st).2.1

theorem finishWord_source (st : LexState) (w : List Char) (sl sp : Nat) :
    (finishWord st w sl sp).source = st.source := by
  unfold finishWord
  split
  · rfl
  · exact lexError_source _ _

theorem finishWord_pos_le (st : LexState) (w : List Char) (sl sp : Nat) :
    st.position ≤ (finishWord st w sl sp).position := by
  unfold finishWord
  split
  · exact le_refl _
  · exact lexError_pos_le _ _

theorem wordBranch_source (st : LexState) : (wordBranch st).source = st.source := by
  simp only [wordBranch]
  repeat' split
  all_goals simp [makeToken_source, collectWord_source, skipWs_source, finishWord_source]

/-- The mid-stage of the `:` branch (token interning) does not move the
cursor. -/
theorem internStagePosition (R : LexState) (c : List Char) (cls cl cp : Nat) :
    (if c ≠ [] then
      match R.identifiers.lookup c with
      | some idn => makeToken R cls idn c cl cp
      | none =>
          makeToken
            { R with
              identifiers := R.identifiers ++ [(c, R.idCounter)],
              idCounter := R.idCounter + 1 }
            cls R.idCounter c cl cp
     else R).position = R.position := by
  split
  · split <;> rfl
  · rfl

theorem internStageSource (R : LexState) (c : List Char) (cls cl cp : Nat) :
    (if c ≠ [] then
      match R.identifiers.lookup c with
      | some idn => makeToken R cls idn c cl cp
      | none =>
          makeToken
            { R with
              identifiers := R.identifiers ++ [(c, R.idCounter)],
              idCounter := R.idCounter + 1 }
            cls R.idCounter c cl cp
     else R).source = R.source := by
  split
  · split <;> rfl
  · rfl

/-- The mid-stage of the `(` branch (constant interning). -/
theorem constStagePosition (R : LexState) (c : List Char) (cls cl cp : Nat) :
    (if c ≠ [] then
      match R.constants.lookup c with
      | some cn => makeToken R cls cn c cl cp
      | none =>
          makeToken
            { R with
              constants := R.constants ++ [(c, R.constCounter)],
              constCounter := R.constCounter + 1 }
            cls R.constCounter c cl cp
     else R).position = R.position := by
  split
  · split <;> rfl
  · rfl

theorem constStageSource (R : LexState) (c : List Char) (cls cl cp : Nat) :
    (if c ≠ [] then
      match R.constants.lookup c with
      | some cn => makeToken R cls cn c cl cp
      | none =>
          makeToken
            { R with
              constants := R.constants ++ [(c, R.constCounter)],
              constCounter := R.constCounter + 1 }
            cls R.constCounter c cl cp
     else R).source = R.source := by
  split
  · split <;> rfl
  · rfl

/-- The closing stage shared by the `:` and `(` branches: emit the
closing delimiter and advance, or record an error. -/
theorem closeStageSource (X : LexState) (cls v : Nat) (tx : List Char) (stop : Char)
    (m : List Char) :
    (if currentChar X = stop then advance (makeToken X cls v tx X.lineNum X.charPos)
     else lexError X m).source = X.source := by
  split
  · rw [advance_source, makeToken_source]
  · exact lexError_source _ _

theorem closeStagePosition (X : LexState) (cls v : Nat) (tx : List Char) (stop : Char)
    (m : List Char) :
    X.position ≤
      (if currentChar X = stop then advance (makeToken X cls v tx X.lineNum X.charPos)
       else lexError X m).position := by
  split
  · rw [advance_position, makeToken_position]
    omega
  · exact lexError_pos_le _ _

theorem colonBranch_source (st : LexState) : (colonBranch st).source = st.source := by
  simp only [colonBranch]
  rw [closeStageSource, internStageSource, readUntil_source, advance_source, makeToken_source]

theorem parenBranch_source (st : LexState) : (parenBranch st).source = st.source := by
  simp only [parenBranch]
  rw [closeStageSource, constStageSource, readUntil_source, advance_source, makeToken_source]

theorem scanStep_source (st : LexState) : (scanStep st).source = st.source := by
  simp only [scanStep]
  repeat' split
  all_goals
    simp [wordBranch_source, colonBranch_source, parenBranch_source, skipWs_source,
      makeToken_source, lexError_source]

theorem wordBranch_progress (st : LexState) (hc : isWordChar (currentChar st) = true) :
    st.position < (wordBranch st).position := by
  have hbuf : (collectWord st).1 ≠ [] := by
    rw [collectWord_eq, if_pos hc]
    simp
  have h1 : st.position < (collectWord st).2.position := by
    have hl := List.length_pos.2 hbuf
    have := collectWord_pos st
    omega
  simp only [wordBranch]
  repeat' split
  · show st.position <
      (collectWord (skipWs { skipWs (collectWord st).2 with
        position := (collectWord st).2.position })).2.position
    have h4 :=
      skipWs_pos_le { skipWs (collectWord st).2 with position := (collectWord st).2.position }
    have hd : ({ skipWs (collectWord st).2 with
        position := (collectWord st).2.position } : LexState).position =
        (collectWord st).2.position := rfl
    have h5 := collectWord_pos_le
      (skipWs { skipWs (collectWord st).2 with position := (collectWord st).2.position })
    omega
  · exact lt_of_lt_of_le h1 (le_trans (skipWs_pos_le _) (finishWord_pos_le _ _ _ _))
  · exact lt_of_lt_of_le h1 (le_trans (skipWs_pos_le _) (finishWord_pos_le _ _ _ _))
  · exact lt_of_lt_of_le h1 (finishWord_pos_le _ _ _ _)

theorem colonBranch_progress (st : LexState) : st.position < (colonBranch st).position := by
  have ha : (advance (makeToken st 2 4 [':'] st.lineNum st.charPos)).position =
      st.position + 1 := by
    rw [advance_position]
    rfl
  have hb := readUntil_pos_le ';' (advance (makeToken st 2 4 [':'] st.lineNum st.charPos))
  simp only [colonBranch]
  refine Nat.lt_of_lt_of_le ?_ (closeStagePosition _ _ _ _ _ _)
  rw [internStagePosition]
  omega

theorem parenBranch_progress (st : LexState) : st.position < (parenBranch st).position := by
  have ha : (advance (makeToken st 2 1 ['('] st.lineNum st.charPos)).position =
      st.position + 1 := by
    rw [advance_position]
    rfl
  have hb := readUntil_pos_le ')' (advance (makeToken st 2 1 ['('] st.lineNum st.charPos))
  simp only [parenBranch]
  refine Nat.lt_of_lt_of_le ?_ (closeStagePosition _ _ _ _ _ _)
  rw [constStagePosition]
  omega

theorem scanStep_progress (st : LexState) (h : currentChar st ≠ nulChar) :
    st.position < (scanStep st).position := by
  have hface : st.position ≤ (skipWs st).position := skipWs_pos_le st
  simp only [scanStep]
  split
  · rename_i hnul
    by_cases hsp : pyIsSpace (currentChar st)
    · rw [skipWs_eq, if_pos ⟨h, hsp⟩]
      have h2 := skipWs_pos_le (advance st)
      rw [advance_position] at h2
      omega
    · exfalso
      apply h
      have hfix : skipWs st = st := by
        rw [skipWs_eq, if_neg (fun hcc => hsp hcc.2)]
      rw [← hfix]
      exact hnul
  · split
    · rename_i halpha
      refine lt_of_le_of_lt hface (wordBranch_progress (skipWs st) ?_)
      have hcase : pyIsAlpha (currentChar (skipWs st)) = true ∨
          currentChar (skipWs st) = '@' := by
        simpa using halpha
      rcases hcase with h1 | h1 <;> simp [isWordChar, pyIsAlnum, h1]
    · split
      · exact lt_of_le_of_lt hface (colonBranch_progress (skipWs st))
      · split
        · exact lt_of_le_of_lt hface (parenBranch_progress (skipWs st))
        · split
          · rw [advance_position, makeToken_position]
            omega
          · have hle := lexError_pos_le (skipWs st)
              ("Неожиданный символ: '".toList ++ [currentChar (skipWs st)] ++ [squote])
            rw [advance_position]
            omega

theorem scanLoop_reaches : ∀ (n : Nat) (st : LexState),
    st.source.length - st.position ≤ n → currentChar (scanLoop n st) = nulChar := by
  intro n
  induction n with
  | zero =>
    intro st hb
    show currentChar st = nulChar
    unfold currentChar
    rw [List.getD_eq_default]
    omega
  | succ n ih =>
    intro st hb
    rw [scanLoop]
    split
    · assumption
    · rename_i hne
      apply ih
      have hp := scanStep_progress st hne
      have hs : (scanStep st).source = st.source := scanStep_source st
      have hlt := position_lt_of_currentChar_ne_nul hne
      rw [hs]
      omega

theorem scanFull_ends (input : List Char) : currentChar (scanFull input) = nulChar := by
  unfold scanFull
  apply scanLoop_reaches
  simp [scanInit]

/-! ## Uniform diagnostics and `get_detailed_errors` -/

/-- The uniform diagnostic record `{type, line, pos, message, source}`.
`line`/`pos` are integers because the unattributable case is `-1`. -/
structure Diag where
  dtype : List Char
  line : Int
  pos : Int
  message : List Char
  source : List Char
deriving DecidableEq, Repr

/-- Parse a maximal non-empty digit run (the regex `(\d+)`, greedy),
returning its value and the rest. -/
def parseDigits (s : List Char) : Option (Nat × List Char) :=
  let ds := s.takeWhile isAsciiDigit
  if ds = [] then none
  else some (ds.foldl (fun acc c => acc * 10 + (c.toNat - '0'.toNat)) 0, s.dropWhile isAsciiDigit)

/-- Drop an exact prefix, or fail. -/
def dropExact (p s : List Char) : Option (List Char) :=
  if p.isPrefixOf s then some (s.drop p.length) else none

/-- The capture `(.+)` at the end of a prefix-anchored `re.match`:
greedy, `.` does not match a newline, and nothing after it is required,
so it captures the non-empty remainder of the current line. -/
def dotPlusCapture (s : List Char) : Option (List Char) :=
  let m := s.takeWhile (fun c => c ≠ '\n')
  if m = [] then none else some m

/-- `PlantUMLLexer.get_detailed_errors`, one message: the pattern
`Ошибка\s*\((\d+),(\d+)\):\s*(.+)` applied with `re.match`, with the
`(-1, -1)` fallback (whose message strips a literal `"Ошибка: "`). -/
def lexDetailOne (msg : List Char) : Diag :=
  let parsed : Option (Nat × Nat × List Char) := do
    let r1 ← dropExact "Ошибка".toList msg
    let r2 := r1.dropWhile pyIsSpace
    let r3 ← dropExact ['('] r2
    let (l, r4) ← parseDigits r3
    let r5 ← dropExact [','] r4
    let (p, r6) ← parseDigits r5
    let r7 ← dropExact "):".toList r6
    let r8 := r7.dropWhile pyIsSpace
    let m ← dotPlusCapture r8
    pure (l, p, m)
  match parsed with
  | some (l, p, m) =>
      ⟨"error".toList, (l : Int), (p : Int), m, "lexer".toList⟩
  | none =>
      ⟨"error".toList, -1, -1, pyReplace msg "Ошибка: ".toList [], "lexer".toList⟩

def lexDetailedErrors (errors : List (List Char)) : List Diag :=
  errors.map lexDetailOne

/-- `PlantUMLSyntaxAnalyzer.get_detailed_errors`, one message: outer
pattern `Ошибка\s*\(([^)]+)\):\s*(.+)`; the `конец файла` case maps to
`(-1, -1)`; otherwise the inner `re.match(r"(\d+),(\d+)", info)` (a prefix
match) extracts the position, and any other shape falls back to `(-1, -1)`
with the whole message. -/
def parserDetailOne (msg : List Char) : Diag :=
  let outer : Option (List Char × List Char) := do
    let r1 ← dropExact "Ошибка".toList msg
    let r2 := r1.dropWhile pyIsSpace
    let r3 ← dropExact ['('] r2
    let info := r3.takeWhile (fun c => c ≠ ')')
    if info = [] then none else
    let r4 ← dropExact (info ++ "):".toList) r3
    let r5 := r4.dropWhile pyIsSpace
    let m ← dotPlusCapture r5
    pure (info, m)
  match outer with
  | none => ⟨"error".toList, -1, -1, msg, "parser".toList⟩
  | some (info, m) =>
    if pyLower info = "конец файла".toList then
      ⟨"error".toList, -1, -1, m, "parser".toList⟩
    else
      match parseDigits info with
      | some (l, rest) =>
          (match dropExact [','] rest with
           | some rest2 =>
               (match parseDigits rest2 with
                | some (p, _) => ⟨"error".toList, (l : Int), (p : Int), m, "parser".toList⟩
                | none => ⟨"error".toList, -1, -1, msg, "parser".toList⟩)
           | none => ⟨"error".toList, -1, -1, msg, "parser".toList⟩)
      | none => ⟨"error".toList, -1, -1, msg, "parser".toList⟩

def parserDetailedErrors (errors : List (List Char)) : List Diag :=
  errors.map parserDetailOne

/-! ## Parser (`backend/parser.py`, classes `Node` and
`PlantUMLSyntaxAnalyzer`)

The recursive-descent parser is embedded with an explicit fuel argument
that every mutually recursive function decrements on entry.  Running out
of fuel clears the `fuelOk` flag of the parser state (a pure
instrumentation field: the theorems below prove that with fuel
`3 * tokens.length + 8` it is never cleared, which is the termination
claim).  All other fields mirror the Python object. -/

structure PNode where
  ntype : List Char
  value : Option (List Char)
  children : List PNode
  line : Nat
  pos : Nat

mutual

/-- A computable structural size of a parse-tree node, used as ample
fuel for the tree traversals of the semantic analyzer and the code
generator (each step of a traversal descends into a child or a tail, so
any traversal depth is below `pnodeSize + 1`). -/
def pnodeSize : PNode → Nat
  | ⟨_, _, cs, _, _⟩ => 1 + pnodeListSize cs

def pnodeListSize : List PNode → Nat
  | [] => 0
  | c :: rest => 1 + pnodeSize c + pnodeListSize rest

end

structure PState where
  tokens : List Token
  position : Nat
  errors : List (List Char)
  fuelOk : Bool

/-- `current_token`. -/
def currentTokenP (st : PState) : Option Token := st.tokens.get? st.position

/-- `next_token` (advance only when a token is available). -/
def nextTokenP (st : PState) : Option Token × PState :=
  match currentTokenP st with
  | some t => (some t, { st with position := st.position + 1 })
  | none => (none, st)

/-- `match` with an expected value. -/
def matchTokV (st : PState) (cls v : Nat) : Bool :=
  match currentTokenP st with
  | some t => t.cls = cls && t.value = v
  | none => false

/-- `match` with only a class (`token_value=None`). -/
def matchTokC (st : PState) (cls : Nat) : Bool :=
  match currentTokenP st with
  | some t => t.cls = cls
  | none => false

def appendPErr (st : PState) (msg : List Char) : PState :=
  { st with errors := st.errors ++ [msg] }

/-- `expect` (every call site passes a message, so the default message
branch is not modelled).  On mismatch the error carries the current
token's line/pos with no space after the comma; at end of input it is
`Ошибка (конец файла): ...`. -/
def expectTok (st : PState) (cls v : Nat) (msg : List Char) : Option Token × PState :=
  match currentTokenP st with
  | none =>
      (none, appendPErr st ("Ошибка (конец файла): ".toList ++ msg))
  | some t =>
      if t.cls ≠ cls then
        (none, appendPErr st ("Ошибка (".toList ++ natToChars t.line ++ [','] ++
          natToChars t.pos ++ "): ".toList ++ msg))
      else if t.value ≠ v then
        (none, appendPErr st ("Ошибка (".toList ++ natToChars t.line ++ [','] ++
          natToChars t.pos ++ "): ".toList ++ msg))
      else nextTokenP st

/-- The inline payload checks (`parse_action`, conditions, branch
labels) format their error with `f"Ошибка ({line}, {pos}): "` — note the
space after the comma — or `Ошибка (EOF, 0)` at end of input. -/
def payloadErrMsg (st : PState) (msg : List Char) : List Char :=
  match currentTokenP st with
  | some t => "Ошибка (".toList ++ natToChars t.line ++ ", ".toList ++
      natToChars t.pos ++ "): ".toList ++ msg
  | none => "Ошибка (EOF, 0): ".toList ++ msg

/-- `parse_action` (non-recursive).  The callers only invoke it when the
current token is the `:` delimiter, so the initial token is present; for
totality its line/pos default to 0 otherwise. -/
def parseAction (st : PState) : PNode × PState :=
  let tline := ((currentTokenP st).map Token.line).getD 0
  let tpos := ((currentTokenP st).map Token.pos).getD 0
  let r1 := expectTok st 2 4 "Ожидается ':' для начала действия".toList
  let st := r1.2
  if r1.1 = none then (⟨"action_node".toList, none, [], tline, tpos⟩, st)
  else
    match currentTokenP st with
    | some t =>
      if t.cls = 4 then
        let st := (nextTokenP st).2
        let contentNode : PNode := ⟨"action_content".toList, some t.text, [], t.line, t.pos⟩
        let r2 := expectTok st 2 3 "Ожидается ';' после содержимого действия".toList
        (⟨"action_node".toList, none, [contentNode], tline, tpos⟩, r2.2)
      else
        (⟨"action_node".toList, none, [], tline, tpos⟩,
         appendPErr st (payloadErrMsg st "Ожидается содержимое действия после ':'".toList))
    | none =>
        (⟨"action_node".toList, none, [], tline, tpos⟩,
         appendPErr st (payloadErrMsg st "Ожидается содержимое действия после ':'".toList))

/-- `parse_branch_label` (non-recursive). -/
def parseBranchLabel (st : PState) : Option PNode × PState :=
  let r1 := expectTok st 2 1 "Ожидается '(' перед ярлыком ветвления".toList
  let st := r1.2
  if r1.1 = none then (none, st)
  else
    match currentTokenP st with
    | some t =>
      if t.cls = 5 then
        let st := (nextTokenP st).2
        let lbl : PNode := ⟨"branch_label".toList, some t.text, [], t.line, t.pos⟩
        let r2 := expectTok st 2 2 "Ожидается ')' после ярлыка ветвления".toList
        if r2.1 = none then (none, r2.2) else (some lbl, r2.2)
      else
        let st := appendPErr st (payloadErrMsg st "Ожидается ярлык ветвления после '('".toList)
        if matchTokV st 2 2 then (none, (nextTokenP st).2) else (none, st)
    | none =>
        let st := appendPErr st (payloadErrMsg st "Ожидается ярлык ветвления после '('".toList)
        if matchTokV st 2 2 then (none, (nextTokenP st).2) else (none, st)

mutual

/-- `parse_statement`. -/
def parseStatement : Nat → PState → Option PNode × PState
  | 0, st => (none, { st with fuelOk := false })
  | n + 1, st =>
    match currentTokenP st with
    | none => (none, st)
    | some tk =>
      if matchTokV st 2 4 then
        let r := parseAction st
        (some r.1, r.2)
      else if matchTokV st 1 4 then
        let r := parseIfStatement n st
        (some r.1, r.2)
      else if matchTokV st 1 11 then
        let r := parseRepeatUntil n st
        (some r.1, r.2)
      else if matchTokV st 1 8 then
        let r := parseWhileLoop n st
        (some r.1, r.2)
      else if matchTokV st 1 7 then (none, st)
      else if matchTokV st 1 10 then (none, st)
      else
        (none, appendPErr st ("Ошибка (".toList ++ natToChars tk.line ++ [','] ++
          natToChars tk.pos ++ "): Неожиданный токен '".toList ++ tk.text ++
          "' типа ".toList ++ natToChars tk.cls ++ ['.']))

/-- `parse_if_statement`. -/
def parseIfStatement : Nat → PState → PNode × PState
  | 0, st => (⟨"if_statement".toList, none, [], 0, 0⟩, { st with fuelOk := false })
  | n + 1, st =>
    let tline := ((currentTokenP st).map Token.line).getD 0
    let tpos := ((currentTokenP st).map Token.pos).getD 0
    let mk := fun (cs : List PNode) => (⟨"if_statement".toList, none, cs, tline, tpos⟩ : PNode)
    let r1 := expectTok st 1 4 "Ожидается ключевое слово 'if'".toList
    let st := r1.2
    if r1.1 = none then (mk [], st) else
    let r2 := expectTok st 2 1 "Ожидается '(' после 'if'".toList
    let st := r2.2
    if r2.1 = none then (mk [], st) else
    match currentTokenP st with
    | none => (mk [], appendPErr st (payloadErrMsg st "Ожидается условие в скобках после 'if'".toList))
    | some ct =>
      if ct.cls ≠ 5 then
        (mk [], appendPErr st (payloadErrMsg st "Ожидается условие в скобках после 'if'".toList))
      else
      let st := (nextTokenP st).2
      let condNode : PNode := ⟨"condition_content".toList, some ct.text, [], ct.line, ct.pos⟩
      let r3 := expectTok st 2 2 "Ожидается ')' после условия".toList
      let st := r3.2
      if r3.1 = none then (mk [condNode], st) else
      let r4 := expectTok st 1 5 "Ожидается ключевое слово 'then'".toList
      let st := r4.2
      if r4.1 = none then (mk [condNode], st) else
      let r5 := expectTok st 2 1 "Ожидается '(' перед ярлыком ветвления 'then'".toList
      let st := r5.2
      if r5.1 = none then (mk [condNode], st) else
      match currentTokenP st with
      | none =>
          (mk [condNode], appendPErr st (payloadErrMsg st "Ожидается ярлык ветвления после '('".toList))
      | some lt =>
        if lt.cls ≠ 5 then
          (mk [condNode], appendPErr st (payloadErrMsg st "Ожидается ярлык ветвления после '('".toList))
        else
        let st := (nextTokenP st).2
        let labelNode : PNode := ⟨"branch_label".toList, some lt.text, [], lt.line, lt.pos⟩
        let r6 := expectTok st 2 2 "Ожидается ')' после ярлыка ветвления 'then'".toList
        let st := r6.2
        if r6.1 = none then (mk [condNode, labelNode], st) else
        let rthen := thenBodyLoop n st
        let thenBody := rthen.1
        let st := rthen.2
        let cs1 := [condNode, labelNode] ++
          (if thenBody.isEmpty then [] else [(⟨"then_branch".toList, none, thenBody, 0, 0⟩ : PNode)])
        let relse :=
          if matchTokV st 1 6 then
            let st := (nextTokenP st).2
            let r7 := expectTok st 2 1 "Ожидается '(' перед ярлыком ветвления 'else'".toList
            let st := r7.2
            let relbl :=
              match currentTokenP st with
              | some et =>
                if et.cls = 5 then
                  ((nextTokenP st).2,
                   [(⟨"else_branch_label".toList, some et.text, [], et.line, et.pos⟩ : PNode)])
                else (st, [])
              | none => (st, [])
            let st := relbl.1
            let st := if matchTokV st 2 2 then (nextTokenP st).2 else st
            let relseb := elseBodyLoop n st
            let elseBody := relseb.1
            let st := relseb.2
            (st, relbl.2 ++
              (if elseBody.isEmpty then [] else [(⟨"else_branch".toList, none, elseBody, 0, 0⟩ : PNode)]))
          else (st, [])
        let st := relse.1
        let cs2 := cs1 ++ relse.2
        let r8 := expectTok st 1 7 "Ожидается ключевое слово 'endif'".toList
        (mk cs2, r8.2)

/-- `parse_while_loop`. -/
def parseWhileLoop : Nat → PState → PNode × PState
  | 0, st => (⟨"while_loop_node".toList, none, [], 0, 0⟩, { st with fuelOk := false })
  | n + 1, st =>
    let tline := ((currentTokenP st).map Token.line).getD 0
    let tpos := ((currentTokenP st).map Token.pos).getD 0
    let mk := fun (cs : List PNode) => (⟨"while_loop_node".toList, none, cs, tline, tpos⟩ : PNode)
    let r1 := expectTok st 1 8 "Ожидается ключевое слово 'while'".toList
    let st := r1.2
    if r1.1 = none then (mk [], st) else
    let r2 := expectTok st 2 1 "Ожидается '(' после 'while'".toList
    let st := r2.2
    if r2.1 = none then (mk [], st) else
    match currentTokenP st with
    | none => (mk [], appendPErr st (payloadErrMsg st "Ожидается условие в скобках после 'while'".toList))
    | some ct =>
      if ct.cls ≠ 5 then
        (mk [], appendPErr st (payloadErrMsg st "Ожидается условие в скобках после 'while'".toList))
      else
      let st := (nextTokenP st).2
      let condNode : PNode := ⟨"condition_content".toList, some ct.text, [], ct.line, ct.pos⟩
      let r3 := expectTok st 2 2 "Ожидается ')' после условия".toList
      let st := r3.2
      if r3.1 = none then (mk [condNode], st) else
      let r4 := expectTok st 1 9 "Ожидается ключевое слово 'is'".toList
      let st := r4.2
      if r4.1 = none then (mk [condNode], st) else
      let rlbl := parseBranchLabel st
      let st := rlbl.2
      match rlbl.1 with
      | none => (mk [condNode], st)
      | some lbl =>
        let rbody := whileBodyLoop n st
        let body := rbody.1
        let st := rbody.2
        let cs1 := [condNode, lbl] ++
          (if body.isEmpty then [] else [(⟨"while_body".toList, none, body, 0, 0⟩ : PNode)])
        let r5 := expectTok st 1 10 "Ожидается ключевое слово 'endwhile'".toList
        let st := r5.2
        if r5.1 = none then (mk cs1, st) else
        let rlbl2 := parseBranchLabel st
        let st := rlbl2.2
        match rlbl2.1 with
        | some lbl2 => (mk (cs1 ++ [lbl2]), st)
        | none => (mk cs1, st)

/-- `parse_repeat_until_loop`. -/
def parseRepeatUntil : Nat → PState → PNode × PState
  | 0, st => (⟨"repeat_until_loop_node".toList, none, [], 0, 0⟩, { st with fuelOk := false })
  | n + 1, st =>
    let tline := ((currentTokenP st).map Token.line).getD 0
    let tpos := ((currentTokenP st).map Token.pos).getD 0
    let mk := fun (cs : List PNode) =>
      (⟨"repeat_until_loop_node".toList, none, cs, tline, tpos⟩ : PNode)
    let r1 := expectTok st 1 11 "Ожидается ключевое слово 'repeat'".toList
    let st := r1.2
    if r1.1 = none then
      (mk [], appendPErr st
        "Ошибка (конец файла): Ожидается ключевое слово 'repeat while' после тела цикла".toList)
    else
    let rbody := repeatBodyLoop n st
    let body := rbody.1
    let st := rbody.2
    let cs1 :=
      if body.isEmpty then [] else [(⟨"repeat_body".toList, none, body, 0, 0⟩ : PNode)]
    let r2 := expectTok st 1 12 "Ожидается ключевое слово 'repeat while'".toList
    let st := r2.2
    if r2.1 = none then (mk cs1, st) else
    let r3 := expectTok st 2 1 "Ожидается '(' после 'repeat while'".toList
    let st := r3.2
    if r3.1 = none then (mk cs1, st) else
    match currentTokenP st with
    | none =>
        (mk cs1, appendPErr st (payloadErrMsg st "Ожидается условие в скобках после 'repeat while'".toList))
    | some ct =>
      if ct.cls ≠ 5 then
        (mk cs1, appendPErr st (payloadErrMsg st "Ожидается условие в скобках после 'repeat while'".toList))
      else
      let st := (nextTokenP st).2
      let condNode : PNode := ⟨"condition_content".toList, some ct.text, [], ct.line, ct.pos⟩
      let cs2 := cs1 ++ [condNode]
      let r4 := expectTok st 2 2 "Ожидается ')' после условия".toList
      let st := r4.2
      if r4.1 = none then (mk cs2, st) else
      let r5 := expectTok st 1 9 "Ожидается ключевое слово 'is'".toList
      let st := r5.2
      if r5.1 = none then (mk cs2, st) else
      let rlbl := parseBranchLabel st
      let st := rlbl.2
      match rlbl.1 with
      | some lbl =>
          (mk (cs2 ++ [{ lbl with ntype := "repeat_until_branch_label".toList }]), st)
      | none => (mk cs2, st)

/-- The `then`-body `statement*` loop of `parse_if_statement`
(`while not match 'else' and not match 'endif'`). -/
def thenBodyLoop : Nat → PState → List PNode × PState
  | 0, st => ([], { st with fuelOk := false })
  | n + 1, st =>
    if ¬ matchTokV st 1 6 ∧ ¬ matchTokV st 1 7 then
      let r := parseStatement n st
      match r.1 with
      | some nd =>
          let rr := thenBodyLoop n r.2
          (nd :: rr.1, rr.2)
      | none => ([], r.2)
    else ([], st)

/-- The `else`-body `statement*` loop (`while not match 'endif'`). -/
def elseBodyLoop : Nat → PState → List PNode × PState
  | 0, st => ([], { st with fuelOk := false })
  | n + 1, st =>
    if ¬ matchTokV st 1 7 then
      let r := parseStatement n st
      match r.1 with
      | some nd =>
          let rr := elseBodyLoop n r.2
          (nd :: rr.1, rr.2)
      | none => ([], r.2)
    else ([], st)

/-- The `while`-body loop (`while not match 'endwhile'`, breaking at end
of input, `stop` or `@enduml`). -/
def whileBodyLoop : Nat → PState → List PNode × PState
  | 0, st => ([], { st with fuelOk := false })
  | n + 1, st =>
    if ¬ matchTokV st 1 10 then
      if st.position ≥ st.tokens.length ∨ matchTokV st 1 3 ∨ matchTokV st 1 13 then ([], st)
      else
        let r := parseStatement n st
        match r.1 with
        | some nd =>
            let rr := whileBodyLoop n r.2
            (nd :: rr.1, rr.2)
        | none => ([], r.2)
    else ([], st)

/-- The `repeat`-body loop (`while True`, breaking at `repeat while`,
`stop` or `@enduml`). -/
def repeatBodyLoop : Nat → PState → List PNode × PState
  | 0, st => ([], { st with fuelOk := false })
  | n + 1, st =>
    if matchTokV st 1 12 then ([], st)
    else if matchTokV st 1 3 ∨ matchTokV st 1 13 then ([], st)
    else
      let r := parseStatement n st
      match r.1 with
      | some nd =>
          let rr := repeatBodyLoop n r.2
          (nd :: rr.1, rr.2)
      | none => ([], r.2)

end

/-- The top-level `statement*` loop of `parse_program`: `while not
match(1, 3)`, breaking at end of input and before `stop`/`@enduml`, and
forcibly advancing one token when a statement parse yields nothing. -/
def topLoop : Nat → PState → List PNode × PState
  | 0, st => ([], { st with fuelOk := false })
  | n + 1, st =>
    if matchTokV st 1 3 then ([], st)
    else if st.position ≥ st.tokens.length then ([], st)
    else if matchTokC st 1 ∧
        (((currentTokenP st).map Token.value).getD 0 = 3 ∨
         ((currentTokenP st).map Token.value).getD 0 = 13) then ([], st)
    else
      let r := parseStatement n st
      match r.1 with
      | some nd =>
          let rr := topLoop n r.2
          (nd :: rr.1, rr.2)
      | none =>
          let st2 := if r.2.position < r.2.tokens.length then (nextTokenP r.2).2 else r.2
          topLoop n st2

/-- `parse_program`. -/
def parseProgram (fuel : Nat) (st : PState) : PNode × PState :=
  let mk := fun (cs : List PNode) => (⟨"program".toList, none, cs, 1, 1⟩ : PNode)
  let r1 := expectTok st 1 1 "Ожидается '@startuml'".toList
  let st := r1.2
  match r1.1 with
  | none => (mk [], st)
  | some t1 =>
    let c1 : PNode := ⟨"startuml_keyword".toList, some t1.text, [], t1.line, t1.pos⟩
    let r2 := expectTok st 1 2 "Ожидается 'start'".toList
    let st := r2.2
    match r2.1 with
    | none => (mk [c1], st)
    | some t2 =>
      let c2 : PNode := ⟨"start_node".toList, some t2.text, [], t2.line, t2.pos⟩
      let rstmts := topLoop fuel st
      let stmts := rstmts.1
      let st := rstmts.2
      let r3 := expectTok st 1 3 "Ожидается 'stop'".toList
      let st := r3.2
      match r3.1 with
      | none => (mk ([c1, c2] ++ stmts), st)
      | some t3 =>
        let c3 : PNode := ⟨"stop_node".toList, some t3.text, [], t3.line, t3.pos⟩
        let r4 := expectTok st 1 13 "Ожидается '@enduml'".toList
        let st := r4.2
        match r4.1 with
        | none => (mk ([c1, c2] ++ stmts ++ [c3]), st)
        | some t4 =>
          let c4 : PNode := ⟨"enduml_keyword".toList, some t4.text, [], t4.line, t4.pos⟩
          (mk ([c1, c2] ++ stmts ++ [c3, c4]), st)

/-- `PlantUMLSyntaxAnalyzer.parse` on a token list, with the fuel proved
sufficient below.  Success is `errors = []`. -/
def parseFull (tokens : List Token) : PNode × PState :=
  parseProgram (3 * tokens.length + 8)
    { tokens := tokens, position := 0, errors := [], fuelOk := true }

/-! ### Parser fuel adequacy: the embedding's fuel never runs out -/

/-- Parser-state monotonicity: tokens are fixed, the cursor moves
forward. -/
def pMono (st st2 : PState) : Prop :=
  st2.tokens = st.tokens ∧ st.position ≤ st2.position

theorem pMono_refl (st : PState) : pMono st st := ⟨rfl, le_refl _⟩

theorem pMono_trans {a b c : PState} (h1 : pMono a b) (h2 : pMono b c) : pMono a c :=
  ⟨h2.1.trans h1.1, h1.2.trans h2.2⟩

theorem currentTokenP_lt {st : PState} {t : Token} (h : currentTokenP st = some t) :
    st.position < st.tokens.length := by
  by_contra hge
  rw [currentTokenP, List.get?_len_le (by omega)] at h
  exact Option.noConfusion h

theorem pM_next {a st : PState} (h : pMono a st) : pMono a (nextTokenP st).2 := by
  refine pMono_trans h ?_
  unfold nextTokenP
  split
  · exact ⟨rfl, Nat.le_succ _⟩
  · exact pMono_refl st

theorem fE_next (st : PState) : (nextTokenP st).2.fuelOk = st.fuelOk := by
  unfold nextTokenP
  split <;> rfl

theorem pM_append {a st : PState} (h : pMono a st) (m : List Char) :
    pMono a (appendPErr st m) :=
  pMono_trans h ⟨rfl, le_refl _⟩

theorem fE_append (st : PState) (m : List Char) : (appendPErr st m).fuelOk = st.fuelOk := rfl

theorem pM_expect {a st : PState} (h : pMono a st) (c v : Nat) (m : List Char) :
    pMono a (expectTok st c v m).2 := by
  refine pMono_trans h ?_
  unfold expectTok
  split
  · exact pM_append (pMono_refl st) _
  · split
    · exact pM_append (pMono_refl st) _
    · split
      · exact pM_append (pMono_refl st) _
      · exact pM_next (pMono_refl st)

theorem fE_expect (st : PState) (c v : Nat) (m : List Char) :
    (expectTok st c v m).2.fuelOk = st.fuelOk := by
  unfold expectTok
  split
  · rfl
  · split
    · rfl
    · split
      · rfl
      · exact fE_next st

/-- A successful `expect` consumed exactly the current token. -/
theorem expectTok_ne_none {st : PState} {c v : Nat} {m : List Char}
    (h : (expectTok st c v m).1 ≠ none) :
    (expectTok st c v m).2 = { st with position := st.position + 1 } ∧
      st.position < st.tokens.length := by
  unfold expectTok at h ⊢
  cases hct : currentTokenP st with
  | none =>
    simp only [hct] at h
    exact absurd rfl h
  | some t =>
    simp only [hct] at h ⊢
    by_cases h1 : t.cls ≠ c
    · rw [if_pos h1] at h
      exact absurd rfl h
    · rw [if_neg h1] at h ⊢
      by_cases h2 : t.value ≠ v
      · rw [if_pos h2] at h
        exact absurd rfl h
      · rw [if_neg h2]
        refine ⟨?_, currentTokenP_lt hct⟩
        unfold nextTokenP
        rw [hct]

/-- `match` success implies `expect` success at the same arguments. -/
theorem expectTok_matchV {st : PState} {c v : Nat} (m : List Char)
    (h : matchTokV st c v = true) :
    expectTok st c v m = nextTokenP st := by
  unfold matchTokV at h
  cases hct : currentTokenP st with
  | none =>
    rw [hct] at h
    exact absurd h (by simp)
  | some t =>
    rw [hct] at h
    have hcv : t.cls = c ∧ t.value = v := by simpa using h
    unfold expectTok
    simp only [hct]
    rw [if_neg (fun hne => hne hcv.1), if_neg (fun hne => hne hcv.2)]

theorem matchTokV_token {st : PState} {c v : Nat} (h : matchTokV st c v = true) :
    ∃ t, currentTokenP st = some t := by
  unfold matchTokV at h
  cases hct : currentTokenP st with
  | none => rw [hct] at h; exact absurd h (by simp)
  | some t => exact ⟨t, rfl⟩

theorem pM_action {a st : PState} (h : pMono a st) : pMono a (parseAction st).2 := by
  refine pMono_trans h ?_
  simp only [parseAction]
  split
  · exact pM_expect (pMono_refl st) _ _ _
  · split
    · split
      · exact pM_expect (pM_next (pM_expect (pMono_refl st) _ _ _)) _ _ _
      · exact pM_append (pM_expect (pMono_refl st) _ _ _) _
    · exact pM_append (pM_expect (pMono_refl st) _ _ _) _

theorem fE_action (st : PState) : (parseAction st).2.fuelOk = st.fuelOk := by
  simp only [parseAction]
  split
  · exact fE_expect _ _ _ _
  · split
    · split
      · rw [fE_expect, fE_next, fE_expect]
      · rw [fE_append, fE_expect]
    · rw [fE_append, fE_expect]

theorem pM_label {a st : PState} (h : pMono a st) : pMono a (parseBranchLabel st).2 := by
  refine pMono_trans h ?_
  simp only [parseBranchLabel]
  split
  · exact pM_expect (pMono_refl st) _ _ _
  · split
    · split
      · split
        · exact pM_expect (pM_next (pM_expect (pMono_refl st) _ _ _)) _ _ _
        · exact pM_expect (pM_next (pM_expect (pMono_refl st) _ _ _)) _ _ _
      · split
        · exact pM_next (pM_append (pM_expect (pMono_refl st) _ _ _) _)
        · exact pM_append (pM_expect (pMono_refl st) _ _ _) _
    · split
      · exact pM_next (pM_append (pM_expect (pMono_refl st) _ _ _) _)
      · exact pM_append (pM_expect (pMono_refl st) _ _ _) _

theorem fE_label (st : PState) : (parseBranchLabel st).2.fuelOk = st.fuelOk := by
  simp only [parseBranchLabel]
  split
  · exact fE_expect _ _ _ _
  · split
    · split
      · split
        · rw [fE_expect, fE_next, fE_expect]
        · rw [fE_expect, fE_next, fE_expect]
      · split
        · rw [fE_next, fE_append, fE_expect]
        · rw [fE_append, fE_expect]
    · split
      · rw [fE_next, fE_append, fE_expect]
      · rw [fE_append, fE_expect]

/-- A statement parse can only report something when a token is
present. -/
theorem parseStatement_some_lt (n : Nat) (st : PState)
    (h : (parseStatement n st).1 ≠ none) : st.position < st.tokens.length := by
  cases n with
  | zero => exact absurd rfl h
  | succ n =>
    rw [parseStatement] at h
    cases hct : currentTokenP st with
    | none =>
      rw [hct] at h
      exact absurd rfl h
    | some t => exact currentTokenP_lt hct

/-- The strict-progress part of `parse_action`: the `:` token is
consumed. -/
theorem parseAction_strict {st : PState} (h : matchTokV st 2 4 = true) :
    st.position < (parseAction st).2.position := by
  have he := expectTok_matchV "Ожидается ':' для начала действия".toList h
  obtain ⟨t, ht⟩ := matchTokV_token h
  have hnx : nextTokenP st = (some t, { st with position := st.position + 1 }) := by
    unfold nextTokenP
    rw [ht]
  simp only [parseAction, he, hnx]
  rw [if_neg (by simp)]
  have hp1 : ({ st with position := st.position + 1 } : PState).position =
      st.position + 1 := rfl
  split
  · split
    · have hc := pM_expect (pM_next (pMono_refl
        ({ st with position := st.position + 1 } : PState))) 2 3
        "Ожидается ';' после содержимого действия".toList
      have := hc.2
      simp only []
      omega
    · have hc := pM_append (pMono_refl ({ st with position := st.position + 1 } : PState))
        (payloadErrMsg { st with position := st.position + 1 }
          "Ожидается содержимое действия после ':'".toList)
      have := hc.2
      simp only []
      omega
  · have hc := pM_append (pMono_refl ({ st with position := st.position + 1 } : PState))
      (payloadErrMsg { st with position := st.position + 1 }
        "Ожидается содержимое действия после ':'".toList)
    have := hc.2
    simp only []
    omega

/-- A parser segment that has consumed at least one token and has not
exhausted fuel. -/
def pSeg (st X : PState) : Prop :=
  X.tokens = st.tokens ∧ st.position + 1 ≤ X.position ∧
    (st.fuelOk = true → X.fuelOk = true)

theorem pSeg_expect {st X : PState} (c v : Nat) (m : List Char) (h : pSeg st X) :
    pSeg st (expectTok X c v m).2 := by
  have hm := pM_expect (pMono_refl X) c v m
  refine ⟨hm.1.trans h.1, h.2.1.trans hm.2, fun hok => ?_⟩
  rw [fE_expect]
  exact h.2.2 hok

theorem pSeg_next {st X : PState} (h : pSeg st X) : pSeg st (nextTokenP X).2 := by
  have hm := pM_next (pMono_refl X)
  refine ⟨hm.1.trans h.1, h.2.1.trans hm.2, fun hok => ?_⟩
  rw [fE_next]
  exact h.2.2 hok

theorem pSeg_append {st X : PState} (m : List Char) (h : pSeg st X) :
    pSeg st (appendPErr X m) := by
  have hm := pM_append (pMono_refl X) m
  exact ⟨hm.1.trans h.1, h.2.1.trans hm.2, fun hok => h.2.2 hok⟩

theorem pSeg_label {st X : PState} (h : pSeg st X) : pSeg st (parseBranchLabel X).2 := by
  have hm := pM_label (pMono_refl X)
  refine ⟨hm.1.trans h.1, h.2.1.trans hm.2, fun hok => ?_⟩
  rw [fE_label]
  exact h.2.2 hok

theorem pSeg_fuel {st X : PState} (h : pSeg st X) (hok : st.fuelOk = true) :
    X.fuelOk = true := h.2.2 hok

theorem pMono_lt {s a b : PState} (h1 : s.position < a.position) (h2 : pMono a b) :
    s.position < b.position := lt_of_lt_of_le h1 h2.2

theorem pM_ite {a : PState} {c : Prop} [Decidable c] {x y : PState}
    (hx : pMono a x) (hy : pMono a y) : pMono a (if c then x else y) := by
  split <;> assumption

theorem pM_iteFst {a : PState} {c : Prop} [Decidable c] {x y : PState × List PNode}
    (hx : pMono a x.1) (hy : pMono a y.1) : pMono a (if c then x else y).1 := by
  split <;> assumption

theorem pM_matchOptFst {a : PState} {o : Option Token} {f : Token → PState × List PNode}
    {z : PState × List PNode} (hf : ∀ t, pMono a (f t).1) (hz : pMono a z.1) :
    pMono a (match o with | some t => f t | none => z).1 := by
  cases o
  · exact hz
  · exact hf _

theorem pSeg_ite {a : PState} {c : Prop} [Decidable c] {x y : PState}
    (hx : pSeg a x) (hy : pSeg a y) : pSeg a (if c then x else y) := by
  split <;> assumption

theorem pSeg_iteFst {a : PState} {c : Prop} [Decidable c] {x y : PState × List PNode}
    (hx : pSeg a x.1) (hy : pSeg a y.1) : pSeg a (if c then x else y).1 := by
  split <;> assumption

theorem pSeg_matchOptFst {a : PState} {o : Option Token} {f : Token → PState × List PNode}
    {z : PState × List PNode} (hf : ∀ t, pSeg a (f t).1) (hz : pSeg a z.1) :
    pSeg a (match o with | some t => f t | none => z).1 := by
  cases o
  · exact hz
  · exact hf _

/-- All the adequacy facts of the mutual parser family at one fuel. -/
def ParserOk (n : Nat) : Prop :=
  (∀ st, pMono st (parseStatement n st).2) ∧
  (∀ st, (parseStatement n st).1 ≠ none → (parseStatement n st).2.fuelOk = true →
    st.position < (parseStatement n st).2.position) ∧
  (∀ st, st.fuelOk = true → 3 * (st.tokens.length - st.position) + 2 ≤ n →
    (parseStatement n st).2.fuelOk = true) ∧
  (∀ st, pMono st (parseIfStatement n st).2) ∧
  (∀ st, matchTokV st 1 4 = true → (parseIfStatement n st).2.fuelOk = true →
    st.position < (parseIfStatement n st).2.position) ∧
  (∀ st, st.fuelOk = true → 3 * (st.tokens.length - st.position) + 1 ≤ n →
    (parseIfStatement n st).2.fuelOk = true) ∧
  (∀ st, pMono st (parseWhileLoop n st).2) ∧
  (∀ st, matchTokV st 1 8 = true → (parseWhileLoop n st).2.fuelOk = true →
    st.position < (parseWhileLoop n st).2.position) ∧
  (∀ st, st.fuelOk = true → 3 * (st.tokens.length - st.position) + 1 ≤ n →
    (parseWhileLoop n st).2.fuelOk = true) ∧
  (∀ st, pMono st (parseRepeatUntil n st).2) ∧
  (∀ st, matchTokV st 1 11 = true → (parseRepeatUntil n st).2.fuelOk = true →
    st.position < (parseRepeatUntil n st).2.position) ∧
  (∀ st, st.fuelOk = true → 3 * (st.tokens.length - st.position) + 1 ≤ n →
    (parseRepeatUntil n st).2.fuelOk = true) ∧
  (∀ st, pMono st (thenBodyLoop n st).2) ∧
  (∀ st, st.fuelOk = true → 3 * (st.tokens.length - st.position) + 3 ≤ n →
    (thenBodyLoop n st).2.fuelOk = true) ∧
  (∀ st, pMono st (elseBodyLoop n st).2) ∧
  (∀ st, st.fuelOk = true → 3 * (st.tokens.length - st.position) + 3 ≤ n →
    (elseBodyLoop n st).2.fuelOk = true) ∧
  (∀ st, pMono st (whileBodyLoop n st).2) ∧
  (∀ st, st.fuelOk = true → 3 * (st.tokens.length - st.position) + 3 ≤ n →
    (whileBodyLoop n st).2.fuelOk = true) ∧
  (∀ st, pMono st (repeatBodyLoop n st).2) ∧
  (∀ st, st.fuelOk = true → 3 * (st.tokens.length - st.position) + 3 ≤ n →
    (repeatBodyLoop n st).2.fuelOk = true)

set_option maxHeartbeats 4000000 in
theorem parserOk : ∀ n : Nat, ParserOk n := by
  intro n
  induction n with
  | zero =>
    refine ⟨fun st => ⟨rfl, le_refl _⟩,
      fun st hsome _ => absurd rfl hsome,
      fun st _ hb => absurd hb (by omega),
      fun st => ⟨rfl, le_refl _⟩,
      fun st _ hfu => absurd hfu (by simp [parseIfStatement]),
      fun st _ hb => absurd hb (by omega),
      fun st => ⟨rfl, le_refl _⟩,
      fun st _ hfu => absurd hfu (by simp [parseWhileLoop]),
      fun st _ hb => absurd hb (by omega),
      fun st => ⟨rfl, le_refl _⟩,
      fun st _ hfu => absurd hfu (by simp [parseRepeatUntil]),
      fun st _ hb => absurd hb (by omega),
      fun st => ⟨rfl, le_refl _⟩,
      fun st _ hb => absurd hb (by omega),
      fun st => ⟨rfl, le_refl _⟩,
      fun st _ hb => absurd hb (by omega),
      fun st => ⟨rfl, le_refl _⟩,
      fun st _ hb => absurd hb (by omega),
      fun st => ⟨rfl, le_refl _⟩,
      fun st _ hb => absurd hb (by omega)⟩
  | succ n ih =>
    obtain ⟨ihSm, ihSs, ihSf, ihIm, ihIs, ihIf, ihWm, ihWs, ihWf, ihRm, ihRs, ihRf,
      ihTm, ihTf, ihEm, ihEf, ihBm, ihBf, ihPm, ihPf⟩ := ih
    have stmtM : ∀ st, pMono st (parseStatement (n + 1) st).2 := by
      intro st
      rw [parseStatement]
      cases hct : currentTokenP st with
      | none =>
        simp only [hct]
        exact pMono_refl st
      | some tk =>
        simp only [hct]
        split
        · exact pM_action (pMono_refl st)
        · split
          · exact ihIm st
          · split
            · exact ihRm st
            · split
              · exact ihWm st
              · split
                · exact pMono_refl st
                · split
                  · exact pMono_refl st
                  · exact pM_append (pMono_refl st) _
    have stmtS : ∀ st, (parseStatement (n + 1) st).1 ≠ none →
        (parseStatement (n + 1) st).2.fuelOk = true →
        st.position < (parseStatement (n + 1) st).2.position := by
      intro st hsome hfuel
      cases hct : currentTokenP st with
      | none =>
        rw [parseStatement] at hsome
        simp only [hct] at hsome
        exact absurd rfl hsome
      | some tk =>
        simp only [parseStatement, hct] at hsome hfuel ⊢
        by_cases h24 : matchTokV st 2 4 = true
        · simp only [if_pos h24] at hfuel ⊢
          exact parseAction_strict h24
        · simp only [if_neg h24] at hsome hfuel ⊢
          by_cases h14 : matchTokV st 1 4 = true
          · simp only [if_pos h14] at hfuel ⊢
            exact ihIs st h14 hfuel
          · simp only [if_neg h14] at hsome hfuel ⊢
            by_cases h111 : matchTokV st 1 11 = true
            · simp only [if_pos h111] at hfuel ⊢
              exact ihRs st h111 hfuel
            · simp only [if_neg h111] at hsome hfuel ⊢
              by_cases h18 : matchTokV st 1 8 = true
              · simp only [if_pos h18] at hfuel ⊢
                exact ihWs st h18 hfuel
              · simp only [if_neg h18] at hsome hfuel ⊢
                by_cases h17 : matchTokV st 1 7 = true
                · simp only [if_pos h17] at hsome
                  exact absurd rfl hsome
                · simp only [if_neg h17] at hsome
                  by_cases h110 : matchTokV st 1 10 = true
                  · simp only [if_pos h110] at hsome
                    exact absurd rfl hsome
                  · simp only [if_neg h110] at hsome
                    exact absurd rfl hsome
    have stmtF : ∀ st, st.fuelOk = true →
        3 * (st.tokens.length - st.position) + 2 ≤ n + 1 →
        (parseStatement (n + 1) st).2.fuelOk = true := by
      intro st hok hb
      rw [parseStatement]
      cases hct : currentTokenP st with
      | none =>
        simp only [hct]
        exact hok
      | some tk =>
        simp only [hct]
        split
        · show (parseAction st).2.fuelOk = true
          rw [fE_action]
          exact hok
        · split
          · exact ihIf st hok (by omega)
          · split
            · exact ihRf st hok (by omega)
            · split
              · exact ihWf st hok (by omega)
              · split
                · exact hok
                · split
                  · exact hok
                  · show (appendPErr st _).fuelOk = true
                    rw [fE_append]
                    exact hok
    have ifM : ∀ st, pMono st (parseIfStatement (n + 1) st).2 := by
      intro st
      rw [parseIfStatement]
      lift_lets
      intros
      repeat' split
      all_goals
        with_reducible repeat first
          | refine pM_expect ?_ _ _ _
          | refine pM_next ?_
          | refine pM_append ?_ _
          | refine pM_label ?_
          | refine pMono_trans ?_ (ihTm _)
          | refine pMono_trans ?_ (ihEm _)
          | refine pM_ite ?_ ?_
          | refine pM_iteFst ?_ ?_
          | refine pM_matchOptFst ?_ ?_
          | intro _
          | exact pMono_refl st
    have ifS : ∀ st, matchTokV st 1 4 = true →
        (parseIfStatement (n + 1) st).2.fuelOk = true →
        st.position < (parseIfStatement (n + 1) st).2.position := by
      intro st hmv hfu
      have he := expectTok_matchV "Ожидается ключевое слово 'if'".toList hmv
      obtain ⟨tk, htk⟩ := matchTokV_token hmv
      have hnx : nextTokenP st = (some tk, { st with position := st.position + 1 }) := by
        unfold nextTokenP
        rw [htk]
      have hlt1 : st.position <
          (expectTok st 1 4 "Ожидается ключевое слово 'if'".toList).2.position := by
        rw [he, hnx]
        show st.position < st.position + 1
        omega
      have hr1 : (expectTok st 1 4 "Ожидается ключевое слово 'if'".toList).1 = some tk := by
        rw [he, hnx]
      rw [parseIfStatement]
      lift_lets
      intros
      split
      · rename_i hnone
        have hnone2 : (expectTok st 1 4 "Ожидается ключевое слово 'if'".toList).1 = none := hnone
        rw [hr1] at hnone2
        exact absurd hnone2 (by simp)
      · repeat' split
        all_goals refine pMono_lt hlt1 ?_
        all_goals
          with_reducible repeat first
            | exact pMono_refl _
            | refine pM_expect ?_ _ _ _
            | refine pM_next ?_
            | refine pM_append ?_ _
            | refine pM_label ?_
            | refine pMono_trans ?_ (ihTm _)
            | refine pMono_trans ?_ (ihEm _)
            | refine pM_ite ?_ ?_
            | refine pM_iteFst ?_ ?_
            | refine pM_matchOptFst ?_ ?_
            | intro _
    have ifF : ∀ st, st.fuelOk = true →
        3 * (st.tokens.length - st.position) + 1 ≤ n + 1 →
        (parseIfStatement (n + 1) st).2.fuelOk = true := by
      intro st hok hb
      have hn : 3 * (st.tokens.length - st.position) ≤ n := by omega
      rw [parseIfStatement]
      lift_lets
      intros
      split
      · show (expectTok st 1 4 "Ожидается ключевое слово 'if'".toList).2.fuelOk = true
        rw [fE_expect]
        exact hok
      · rename_i h1
        have h1x : (expectTok st 1 4 "Ожидается ключевое слово 'if'".toList).1 ≠ none := h1
        obtain ⟨he1, hlt⟩ := expectTok_ne_none h1x
        have hseg1 : pSeg st (expectTok st 1 4 "Ожидается ключевое слово 'if'".toList).2 := by
          rw [he1]
          exact ⟨rfl, le_refl _, fun h => h⟩
        have segT : ∀ {X : PState}, pSeg st X → pSeg st (thenBodyLoop n X).2 := by
          intro X hX
          obtain ⟨hXt, hXp, hXf⟩ := hX
          obtain ⟨hmt, hmp⟩ := ihTm X
          refine ⟨hmt.trans hXt, hXp.trans hmp, fun hok2 => ?_⟩
          refine ihTf X (hXf hok2) ?_
          rw [hXt]
          omega
        have segE : ∀ {X : PState}, pSeg st X → pSeg st (elseBodyLoop n X).2 := by
          intro X hX
          obtain ⟨hXt, hXp, hXf⟩ := hX
          obtain ⟨hmt, hmp⟩ := ihEm X
          refine ⟨hmt.trans hXt, hXp.trans hmp, fun hok2 => ?_⟩
          refine ihEf X (hXf hok2) ?_
          rw [hXt]
          omega
        repeat' split
        all_goals refine pSeg_fuel ?_ hok
        all_goals
          with_reducible repeat first
            | exact hseg1
            | refine pSeg_expect _ _ _ ?_
            | refine pSeg_next ?_
            | refine pSeg_append _ ?_
            | refine pSeg_label ?_
            | refine segT ?_
            | refine segE ?_
            | refine pSeg_ite ?_ ?_
            | refine pSeg_iteFst ?_ ?_
            | refine pSeg_matchOptFst ?_ ?_
            | intro _
    have whM : ∀ st, pMono st (parseWhileLoop (n + 1) st).2 := by
      intro st
      rw [parseWhileLoop]
      lift_lets
      intros
      repeat' split
      all_goals
        with_reducible repeat first
          | refine pM_expect ?_ _ _ _
          | refine pM_next ?_
          | refine pM_append ?_ _
          | refine pM_label ?_
          | refine pMono_trans ?_ (ihBm _)
          | refine pM_ite ?_ ?_
          | refine pM_iteFst ?_ ?_
          | refine pM_matchOptFst ?_ ?_
          | intro _
          | exact pMono_refl st
    have whS : ∀ st, matchTokV st 1 8 = true →
        (parseWhileLoop (n + 1) st).2.fuelOk = true →
        st.position < (parseWhileLoop (n + 1) st).2.position := by
      intro st hmv hfu
      have he := expectTok_matchV "Ожидается ключевое слово 'while'".toList hmv
      obtain ⟨tk, htk⟩ := matchTokV_token hmv
      have hnx : nextTokenP st = (some tk, { st with position := st.position + 1 }) := by
        unfold nextTokenP
        rw [htk]
      have hlt1 : st.position <
          (expectTok st 1 8 "Ожидается ключевое слово 'while'".toList).2.position := by
        rw [he, hnx]
        show st.position < st.position + 1
        omega
      have hr1 : (expectTok st 1 8 "Ожидается ключевое слово 'while'".toList).1 = some tk := by
        rw [he, hnx]
      rw [parseWhileLoop]
      lift_lets
      intros
      split
      · rename_i hnone
        have hnone2 : (expectTok st 1 8 "Ожидается ключевое слово 'while'".toList).1 = none := hnone
        rw [hr1] at hnone2
        exact absurd hnone2 (by simp)
      · repeat' split
        all_goals refine pMono_lt hlt1 ?_
        all_goals
          with_reducible repeat first
            | exact pMono_refl _
            | refine pM_expect ?_ _ _ _
            | refine pM_next ?_
            | refine pM_append ?_ _
            | refine pM_label ?_
            | refine pMono_trans ?_ (ihBm _)
            | refine pM_ite ?_ ?_
            | refine pM_iteFst ?_ ?_
            | refine pM_matchOptFst ?_ ?_
            | intro _
    have whF : ∀ st, st.fuelOk = true →
        3 * (st.tokens.length - st.position) + 1 ≤ n + 1 →
        (parseWhileLoop (n + 1) st).2.fuelOk = true := by
      intro st hok hb
      have hn : 3 * (st.tokens.length - st.position) ≤ n := by omega
      rw [parseWhileLoop]
      lift_lets
      intros
      split
      · show (expectTok st 1 8 "Ожидается ключевое слово 'while'".toList).2.fuelOk = true
        rw [fE_expect]
        exact hok
      · rename_i h1
        have h1x : (expectTok st 1 8 "Ожидается ключевое слово 'while'".toList).1 ≠ none := h1
        obtain ⟨he1, hlt⟩ := expectTok_ne_none h1x
        have hseg1 : pSeg st (expectTok st 1 8 "Ожидается ключевое слово 'while'".toList).2 := by
          rw [he1]
          exact ⟨rfl, le_refl _, fun h => h⟩
        have segB : ∀ {X : PState}, pSeg st X → pSeg st (whileBodyLoop n X).2 := by
          intro X hX
          obtain ⟨hXt, hXp, hXf⟩ := hX
          obtain ⟨hmt, hmp⟩ := ihBm X
          refine ⟨hmt.trans hXt, hXp.trans hmp, fun hok2 => ?_⟩
          refine ihBf X (hXf hok2) ?_
          rw [hXt]
          omega
        repeat' split
        all_goals refine pSeg_fuel ?_ hok
        all_goals
          with_reducible repeat first
            | exact hseg1
            | refine pSeg_expect _ _ _ ?_
            | refine pSeg_next ?_
            | refine pSeg_append _ ?_
            | refine pSeg_label ?_
            | refine segB ?_
            | refine pSeg_ite ?_ ?_
            | refine pSeg_iteFst ?_ ?_
            | refine pSeg_matchOptFst ?_ ?_
            | intro _
    have rpM : ∀ st, pMono st (parseRepeatUntil (n + 1) st).2 := by
      intro st
      rw [parseRepeatUntil]
      lift_lets
      intros
      repeat' split
      all_goals
        with_reducible repeat first
          | refine pM_expect ?_ _ _ _
          | refine pM_next ?_
          | refine pM_append ?_ _
          | refine pM_label ?_
          | refine pMono_trans ?_ (ihPm _)
          | refine pM_ite ?_ ?_
          | refine pM_iteFst ?_ ?_
          | refine pM_matchOptFst ?_ ?_
          | intro _
          | exact pMono_refl st
    have rpS : ∀ st, matchTokV st 1 11 = true →
        (parseRepeatUntil (n + 1) st).2.fuelOk = true →
        st.position < (parseRepeatUntil (n + 1) st).2.position := by
      intro st hmv hfu
      have he := expectTok_matchV "Ожидается ключевое слово 'repeat'".toList hmv
      obtain ⟨tk, htk⟩ := matchTokV_token hmv
      have hnx : nextTokenP st = (some tk, { st with position := st.position + 1 }) := by
        unfold nextTokenP
        rw [htk]
      have hlt1 : st.position <
          (expectTok st 1 11 "Ожидается ключевое слово 'repeat'".toList).2.position := by
        rw [he, hnx]
        show st.position < st.position + 1
        omega
      have hr1 : (expectTok st 1 11 "Ожидается ключевое слово 'repeat'".toList).1 = some tk := by
        rw [he, hnx]
      rw [parseRepeatUntil]
      lift_lets
      intros
      split
      · rename_i hnone
        have hnone2 : (expectTok st 1 11 "Ожидается ключевое слово 'repeat'".toList).1 = none := hnone
        rw [hr1] at hnone2
        exact absurd hnone2 (by simp)
      · repeat' split
        all_goals refine pMono_lt hlt1 ?_
        all_goals
          with_reducible repeat first
            | exact pMono_refl _
            | refine pM_expect ?_ _ _ _
            | refine pM_next ?_
            | refine pM_append ?_ _
            | refine pM_label ?_
            | refine pMono_trans ?_ (ihPm _)
            | refine pM_ite ?_ ?_
            | refine pM_iteFst ?_ ?_
            | refine pM_matchOptFst ?_ ?_
            | intro _
    have rpF : ∀ st, st.fuelOk = true →
        3 * (st.tokens.length - st.position) + 1 ≤ n + 1 →
        (parseRepeatUntil (n + 1) st).2.fuelOk = true := by
      intro st hok hb
      have hn : 3 * (st.tokens.length - st.position) ≤ n := by omega
      rw [parseRepeatUntil]
      lift_lets
      intros
      split
      · show (appendPErr (expectTok st 1 11 "Ожидается ключевое слово 'repeat'".toList).2 _).fuelOk = true
        rw [fE_append]
        rw [fE_expect]
        exact hok
      · rename_i h1
        have h1x : (expectTok st 1 11 "Ожидается ключевое слово 'repeat'".toList).1 ≠ none := h1
        obtain ⟨he1, hlt⟩ := expectTok_ne_none h1x
        have hseg1 : pSeg st (expectTok st 1 11 "Ожидается ключевое слово 'repeat'".toList).2 := by
          rw [he1]
          exact ⟨rfl, le_refl _, fun h => h⟩
        have segP : ∀ {X : PState}, pSeg st X → pSeg st (repeatBodyLoop n X).2 := by
          intro X hX
          obtain ⟨hXt, hXp, hXf⟩ := hX
          obtain ⟨hmt, hmp⟩ := ihPm X
          refine ⟨hmt.trans hXt, hXp.trans hmp, fun hok2 => ?_⟩
          refine ihPf X (hXf hok2) ?_
          rw [hXt]
          omega
        repeat' split
        all_goals refine pSeg_fuel ?_ hok
        all_goals
          with_reducible repeat first
            | exact hseg1
            | refine pSeg_expect _ _ _ ?_
            | refine pSeg_next ?_
            | refine pSeg_append _ ?_
            | refine pSeg_label ?_
            | refine segP ?_
            | refine pSeg_ite ?_ ?_
            | refine pSeg_iteFst ?_ ?_
            | refine pSeg_matchOptFst ?_ ?_
            | intro _
    have thenM : ∀ st, pMono st (thenBodyLoop (n + 1) st).2 := by
      intro st
      simp only [thenBodyLoop]
      split
      · split
        · exact pMono_trans (ihSm st) (ihTm _)
        · exact ihSm st
      · exact pMono_refl st
    have thenF : ∀ st, st.fuelOk = true →
        3 * (st.tokens.length - st.position) + 3 ≤ n + 1 →
        (thenBodyLoop (n + 1) st).2.fuelOk = true := by
      intro st hok hb
      simp only [thenBodyLoop]
      split
      · split
        · rename_i nd heq
          have hf : (parseStatement n st).2.fuelOk = true := ihSf st hok (by omega)
          have hst : st.position < (parseStatement n st).2.position :=
            ihSs st (by rw [heq]; simp) hf
          have hlt : st.position < st.tokens.length :=
            parseStatement_some_lt n st (by rw [heq]; simp)
          obtain ⟨ht, -⟩ := ihSm st
          refine ihTf _ hf ?_
          rw [ht]
          omega
        · exact ihSf st hok (by omega)
      · exact hok
    have elseM : ∀ st, pMono st (elseBodyLoop (n + 1) st).2 := by
      intro st
      simp only [elseBodyLoop]
      split
      · split
        · exact pMono_trans (ihSm st) (ihEm _)
        · exact ihSm st
      · exact pMono_refl st
    have elseF : ∀ st, st.fuelOk = true →
        3 * (st.tokens.length - st.position) + 3 ≤ n + 1 →
        (elseBodyLoop (n + 1) st).2.fuelOk = true := by
      intro st hok hb
      simp only [elseBodyLoop]
      split
      · split
        · rename_i nd heq
          have hf : (parseStatement n st).2.fuelOk = true := ihSf st hok (by omega)
          have hst : st.position < (parseStatement n st).2.position :=
            ihSs st (by rw [heq]; simp) hf
          have hlt : st.position < st.tokens.length :=
            parseStatement_some_lt n st (by rw [heq]; simp)
          obtain ⟨ht, -⟩ := ihSm st
          refine ihEf _ hf ?_
          rw [ht]
          omega
        · exact ihSf st hok (by omega)
      · exact hok
    have wbM : ∀ st, pMono st (whileBodyLoop (n + 1) st).2 := by
      intro st
      simp only [whileBodyLoop]
      split
      · split
        · exact pMono_refl st
        · split
          · exact pMono_trans (ihSm st) (ihBm _)
          · exact ihSm st
      · exact pMono_refl st
    have wbF : ∀ st, st.fuelOk = true →
        3 * (st.tokens.length - st.position) + 3 ≤ n + 1 →
        (whileBodyLoop (n + 1) st).2.fuelOk = true := by
      intro st hok hb
      simp only [whileBodyLoop]
      split
      · split
        · exact hok
        · split
          · rename_i nd heq
            have hf : (parseStatement n st).2.fuelOk = true := ihSf st hok (by omega)
            have hst : st.position < (parseStatement n st).2.position :=
              ihSs st (by rw [heq]; simp) hf
            have hlt : st.position < st.tokens.length :=
              parseStatement_some_lt n st (by rw [heq]; simp)
            obtain ⟨ht, -⟩ := ihSm st
            refine ihBf _ hf ?_
            rw [ht]
            omega
          · exact ihSf st hok (by omega)
      · exact hok
    have rbM : ∀ st, pMono st (repeatBodyLoop (n + 1) st).2 := by
      intro st
      simp only [repeatBodyLoop]
      split
      · exact pMono_refl st
      · split
        · exact pMono_refl st
        · split
          · exact pMono_trans (ihSm st) (ihPm _)
          · exact ihSm st
    have rbF : ∀ st, st.fuelOk = true →
        3 * (st.tokens.length - st.position) + 3 ≤ n + 1 →
        (repeatBodyLoop (n + 1) st).2.fuelOk = true := by
      intro st hok hb
      simp only [repeatBodyLoop]
      split
      · exact hok
      · split
        · exact hok
        · split
          · rename_i nd heq
            have hf : (parseStatement n st).2.fuelOk = true := ihSf st hok (by omega)
            have hst : st.position < (parseStatement n st).2.position :=
              ihSs st (by rw [heq]; simp) hf
            have hlt : st.position < st.tokens.length :=
              parseStatement_some_lt n st (by rw [heq]; simp)
            obtain ⟨ht, -⟩ := ihSm st
            refine ihPf _ hf ?_
            rw [ht]
            omega
          · exact ihSf st hok (by omega)
    exact ⟨stmtM, stmtS, stmtF, ifM, ifS, ifF, whM, whS, whF, rpM, rpS, rpF,
      thenM, thenF, elseM, elseF, wbM, wbF, rbM, rbF⟩

theorem nextTokenP_lt {st : PState} (h : st.position < st.tokens.length) :
    (nextTokenP st).2 = { st with position := st.position + 1 } := by
  unfold nextTokenP currentTokenP
  rw [List.get?_eq_get h]

theorem topLoop_mono : ∀ (n : Nat) (st : PState), pMono st (topLoop n st).2 := by
  intro n
  induction n with
  | zero => intro st; exact pMono_refl st
  | succ n ih =>
    intro st
    obtain ⟨sm, ss, sf, -⟩ := parserOk n
    simp only [topLoop]
    split
    · exact pMono_refl st
    · split
      · exact pMono_refl st
      · split
        · exact pMono_refl st
        · split
          · exact pMono_trans (sm st) (ih _)
          · refine pMono_trans ?_ (ih _)
            refine pM_ite ?_ ?_
            · exact pM_next (sm st)
            · exact sm st

theorem topLoop_fuel : ∀ (n : Nat) (st : PState), st.fuelOk = true →
    3 * (st.tokens.length - st.position) + 3 ≤ n → (topLoop n st).2.fuelOk = true := by
  intro n
  induction n with
  | zero => intro st _ hb; exact absurd hb (by omega)
  | succ n ih =>
    intro st hok hb
    obtain ⟨sm, ss, sf, -⟩ := parserOk n
    simp only [topLoop]
    split
    · exact hok
    · split
      · exact hok
      · split
        · exact hok
        · rename_i h13 hlen hsv
          have hf : (parseStatement n st).2.fuelOk = true := sf st hok (by omega)
          obtain ⟨ht, hp⟩ := sm st
          split
          · rename_i nd heq
            have hst : st.position < (parseStatement n st).2.position :=
              ss st (by rw [heq]; simp) hf
            refine ih _ hf ?_
            rw [ht]
            omega
          · rename_i heq
            split
            · rename_i hlt2
              rw [nextTokenP_lt hlt2]
              refine ih _ hf ?_
              show 3 * ((parseStatement n st).2.tokens.length -
                ((parseStatement n st).2.position + 1)) + 3 ≤ n
              rw [ht] at hlt2 ⊢
              omega
            · rename_i hge2
              refine ih _ hf ?_
              rw [ht] at hge2 ⊢
              omega

theorem parseProgram_fuel (fuel : Nat) (st : PState) (hok : st.fuelOk = true)
    (hb : 3 * (st.tokens.length - st.position) + 3 ≤ fuel) :
    (parseProgram fuel st).2.fuelOk = true := by
  rw [parseProgram]
  lift_lets
  intros
  split
  · show (expectTok st 1 1 "Ожидается '@startuml'".toList).2.fuelOk = true
    rw [fE_expect]
    exact hok
  · split
    · show (expectTok (expectTok st 1 1 "Ожидается '@startuml'".toList).2 1 2
        "Ожидается 'start'".toList).2.fuelOk = true
      rw [fE_expect, fE_expect]
      exact hok
    · have hok2 : ((expectTok (expectTok st 1 1 "Ожидается '@startuml'".toList).2 1 2
          "Ожидается 'start'".toList).2).fuelOk = true := by
        rw [fE_expect, fE_expect]
        exact hok
      have hm2 := pM_expect (pM_expect (pMono_refl st) 1 1 "Ожидается '@startuml'".toList)
        1 2 "Ожидается 'start'".toList
      have htop : (topLoop fuel (expectTok (expectTok st 1 1
          "Ожидается '@startuml'".toList).2 1 2 "Ожидается 'start'".toList).2).2.fuelOk =
          true := by
        refine topLoop_fuel fuel _ hok2 ?_
        obtain ⟨ht, hp⟩ := hm2
        rw [ht]
        omega
      split
      · show (expectTok (topLoop fuel (expectTok (expectTok st 1 1
            "Ожидается '@startuml'".toList).2 1 2 "Ожидается 'start'".toList).2).2 1 3
            "Ожидается 'stop'".toList).2.fuelOk = true
        rw [fE_expect]
        exact htop
      · split
        · show (expectTok (expectTok (topLoop fuel (expectTok (expectTok st 1 1
              "Ожидается '@startuml'".toList).2 1 2 "Ожидается 'start'".toList).2).2 1 3
              "Ожидается 'stop'".toList).2 1 13 "Ожидается '@enduml'".toList).2.fuelOk = true
          rw [fE_expect, fE_expect]
          exact htop
        · show (expectTok (expectTok (topLoop fuel (expectTok (expectTok st 1 1
              "Ожидается '@startuml'".toList).2 1 2 "Ожидается 'start'".toList).2).2 1 3
              "Ожидается 'stop'".toList).2 1 13 "Ожидается '@enduml'".toList).2.fuelOk = true
          rw [fE_expect, fE_expect]
          exact htop

/-- The fuel chosen by `parseFull` is always sufficient. -/
theorem parseFull_fuelOk (tokens : List Token) : (parseFull tokens).2.fuelOk = true := by
  unfold parseFull
  refine parseProgram_fuel _ _ rfl ?_
  show 3 * (tokens.length - 0) + 3 ≤ 3 * tokens.length + 8
  omega

/-! ## The regular expressions of `backend/constants.py` and
`backend/sema.py`, embedded as executable matchers

Each matcher reproduces the Python `re` semantics of the concrete
pattern it is named after: `re.match` anchors only at the start; `$`
matches at the end of the string or before a final newline; `.` does not
match a newline; greedy pieces (`\s*`, `\d+`, identifier classes)
prefer the longest alternative and lazy pieces (`.+?`) the shortest,
explored in the engine's backtracking order. -/

/-- `.` of the regexes: any character except a newline. -/
def dotNoNl (c : Char) : Bool := c ≠ '\n'

/-- Remove a single final newline (the position where `$` may also
match). -/
def trim1nl (s : List Char) : List Char :=
  if s.getLast? = some '\n' then s.dropLast else s

/-- The greedy identifier capture `([a-zA-Z_][a-zA-Z0-9_]*)`: longest
match (it can never give back characters because every continuation in
the patterns using it starts with a non-identifier character). -/
def readIdent : List Char → Option (List Char × List Char)
  | [] => none
  | c :: rest =>
    if isIdentStart c then
      some (c :: rest.takeWhile isIdentChar, rest.dropWhile isIdentChar)
    else none

/-- The group `(:?=)`: the two-character `:=` or the single `=`. -/
def readAssignOp (s : List Char) : Option (List Char × List Char) :=
  match s with
  | ':' :: '=' :: rest => some ([':', '='], rest)
  | '=' :: rest => some (['='], rest)
  | _ => none

/-- `\s*(.+)$` at the end of a pattern: the greedy `\s*` prefers to
consume the most whitespace, backing off only if the remainder would be
empty; the capture must be newline-free apart from a final newline
sitting after the `$`. -/
def wsGroupEnd (r : List Char) : Option (List Char) :=
  let w := (r.takeWhile pyIsSpace).length
  (((List.range (w + 1)).reverse).findSome? fun k =>
    let g := trim1nl (r.drop k)
    if g ≠ [] ∧ g.all dotNoNl then some g else none)

/-- `^([a-zA-Z_][a-zA-Z0-9_]*)\s*(:?=)\s*(.+)$` (the scalar-assignment
pattern used by `sema.py` and `code_generator.py`), returning
`(name, operator, right-hand side)`. -/
def simpleAssignMatch (s : List Char) : Option (List Char × List Char × List Char) := do
  let (name, r1) ← readIdent s
  let r2 := r1.dropWhile pyIsSpace
  let (op, r3) ← readAssignOp r2
  let g3 ← wsGroupEnd r3
  pure (name, op, g3)

/-- `\s*(.+?)\s*\]` followed by a continuation: the backtracking order
is the greedy `\s*` from longest down, then the lazy `(.+?)` from
shortest up; after the capture the greedy `\s*` must run exactly to a
`]`.  Returns the capture and the rest after `]` for the first
combination whose continuation succeeds. -/
def lazyUpToBracket (r : List Char) (k : List Char → List Char → Option α) : Option α :=
  let w := (r.takeWhile pyIsSpace).length
  (((List.range (w + 1)).reverse).findSome? fun ws2 =>
    let t := r.drop ws2
    ((List.range t.length).findSome? fun km1 =>
      let g := t.take (km1 + 1)
      if g.all dotNoNl then
        match (t.drop (km1 + 1)).dropWhile pyIsSpace with
        | ']' :: rest => k g rest
        | _ => none
      else none))

/-- `^([a-zA-Z_][a-zA-Z0-9_]*)\s*\[\s*(.+?)\s*\]\s*(:?=)\s*(.+)$`
(the array-assignment pattern of `sema.py`), returning
`(name, index, operator, value)`. -/
def arrayAssignMatch (s : List Char) :
    Option (List Char × List Char × List Char × List Char) := do
  let (name, r1) ← readIdent s
  let r2 := r1.dropWhile pyIsSpace
  match r2 with
  | '[' :: r3 =>
    lazyUpToBracket r3 (fun idx rest => do
      let v := rest.dropWhile pyIsSpace
      let (op, r4) ← readAssignOp v
      let g4 ← wsGroupEnd r4
      pure (name, idx, op, g4))
  | _ => none

/-- `ARRAY_ACCESS_PATTERN = ^([a-zA-Z_][a-zA-Z0-9_]*)\s*\[\s*(.+?)\s*\]$`
(from `constants.py`), returning `(name, index)`. -/
def arrayAccessMatch (s : List Char) : Option (List Char × List Char) := do
  let (name, r1) ← readIdent s
  let r2 := r1.dropWhile pyIsSpace
  match r2 with
  | '[' :: r3 =>
    lazyUpToBracket r3 (fun idx rest =>
      if rest = [] ∨ rest = ['\n'] then some (name, idx) else none)
  | _ => none

/-- The direction alternation `(to|downto)` of `FOR_LOOP_PATTERN`
(case-insensitive; `to` is tried first, and the two alternatives can
never match at the same position). -/
def readDirection (s : List Char) : Option (List Char × List Char) :=
  if pyLower (s.take 2) = "to".toList ∧ s.length ≥ 2 then some (s.take 2, s.drop 2)
  else if pyLower (s.take 6) = "downto".toList ∧ s.length ≥ 6 then some (s.take 6, s.drop 6)
  else none

/-- `FOR_LOOP_PATTERN =
^\s*([a-zA-Z_][a-zA-Z0-9_]*)\s*:=\s*(.+?)\s+(to|downto)\s+(.+?)\s*$`
with `re.IGNORECASE` (from `constants.py`), returning
`(counter, start, direction-as-written, end)`. -/
def forLoopMatch (s : List Char) :
    Option (List Char × List Char × List Char × List Char) := do
  let r0 := s.dropWhile pyIsSpace
  let (name, r1) ← readIdent r0
  let r2 := r1.dropWhile pyIsSpace
  let r3 ← dropExact [':', '='] r2
  let w := (r3.takeWhile pyIsSpace).length
  (((List.range (w + 1)).reverse).findSome? fun ws2 =>
    let t := r3.drop ws2
    ((List.range t.length).findSome? fun km1 =>
      let g2 := t.take (km1 + 1)
      if g2.all dotNoNl then
        let u := t.drop (km1 + 1)
        if pyIsSpace (u.headD nulChar) then
          let u2 := u.dropWhile pyIsSpace
          match readDirection u2 with
          | some (dir, rest) =>
            if pyIsSpace (rest.headD nulChar) then
              let u3 := rest.dropWhile pyIsSpace
              let g4 := pyRstrip u3
              if g4 ≠ [] ∧ g4.all dotNoNl then some (name, g2, dir, g4) else none
            else none
          | none => none
        else none
      else none))

/-- `^["\'].*["\']$` under `re.match` (quoted-literal test): at least
two characters, the first and last being a quote of either kind, with no
newline between them (one newline may trail after the closing quote,
where `$` still matches). -/
def isQuoteChar (c : Char) : Bool := c = '"' || c = squote

def pyQuotedMatch (s : List Char) : Bool :=
  let r := trim1nl s
  r.length ≥ 2 && isQuoteChar (r.headD nulChar) && isQuoteChar (r.getLastD nulChar) &&
    ((r.drop 1).dropLast.all dotNoNl)

/-- `re.match(r'^[a-zA-Z_][a-zA-Z0-9_]*$', s)` (a final newline may
follow the identifier). -/
def identMatchDollar (s : List Char) : Bool :=
  let r := trim1nl s
  match r with
  | [] => false
  | c :: rest => isIdentStart c && rest.all isIdentChar

/-- `re.fullmatch(r'^[a-zA-Z_][a-zA-Z0-9_]*$', s)`. -/
def identFullMatch (s : List Char) : Bool :=
  match s with
  | [] => false
  | c :: rest => isIdentStart c && rest.all isIdentChar

/-- `^[+-]?(\d+\.?\d*|\.\d+)([eE][+-]?\d+)?$` under `re.match` (numeric
literal).  The greedy pieces never need to give back characters here, so
a straight scan is equivalent. -/
def numLitMatch (s : List Char) : Bool :=
  let r := trim1nl s
  let r1 := match r with
    | '+' :: rest => rest
    | '-' :: rest => rest
    | other => other
  let ds := r1.takeWhile isAsciiDigit
  let core : Option (List Char) :=
    if ds ≠ [] then
      let r2 := r1.dropWhile isAsciiDigit
      match r2 with
      | '.' :: r3 => some (r3.dropWhile isAsciiDigit)
      | other => some other
    else
      match r1 with
      | '.' :: r3 =>
        if (r3.takeWhile isAsciiDigit) ≠ [] then some (r3.dropWhile isAsciiDigit) else none
      | _ => none
  match core with
  | none => false
  | some r4 =>
    match r4 with
    | [] => true
    | e :: r5 =>
      if e = 'e' ∨ e = 'E' then
        let r6 := match r5 with
          | '+' :: rest => rest
          | '-' :: rest => rest
          | other => other
        (r6.takeWhile isAsciiDigit) ≠ [] ∧ r6.dropWhile isAsciiDigit = []
      else false

/-- `^[+-]?(\d+\.?\d*|\.\d+)$` (the exponent-free numeric test used on
operand tokens). -/
def numTokMatch (s : List Char) : Bool :=
  let r := trim1nl s
  let r1 := match r with
    | '+' :: rest => rest
    | '-' :: rest => rest
    | other => other
  let ds := r1.takeWhile isAsciiDigit
  if ds ≠ [] then
    match r1.dropWhile isAsciiDigit with
    | [] => true
    | '.' :: r3 => r3.dropWhile isAsciiDigit = []
    | _ => false
  else
    match r1 with
    | '.' :: r3 => (r3.takeWhile isAsciiDigit) ≠ [] ∧ r3.dropWhile isAsciiDigit = []
    | _ => false

/-- Maximal runs of Unicode word characters (`\w+`), used to model the
`\b`-delimited searches. -/
def wordRunsF : Nat → List Char → List (List Char)
  | 0, _ => []
  | _ + 1, [] => []
  | n + 1, c :: rest =>
    if pyWordChar c then
      (c :: rest.takeWhile pyWordChar) :: wordRunsF n (rest.dropWhile pyWordChar)
    else wordRunsF n rest

def wordRuns (l : List Char) : List (List Char) := wordRunsF l.length l

/-- `re.findall(r'\b[a-zA-Z_][a-zA-Z0-9_]*\b', s)`: a maximal word run
matches exactly when it starts with an ASCII letter or underscore and
consists only of ASCII identifier characters (a run containing a
non-ASCII word character, or starting with a digit, has no interior
`\b` boundary and yields nothing). -/
def findIdents (s : List Char) : List (List Char) :=
  (wordRuns s).filter fun r =>
    isIdentStart (r.headD nulChar) && r.all isIdentChar

/-- `re.split(r',\s*', s)`: split at every comma, also consuming the
whitespace that follows it. -/
def splitCommaWsF : Nat → List Char → List (List Char)
  | 0, _ => [[]]
  | _ + 1, [] => [[]]
  | n + 1, ',' :: rest =>
      [] :: splitCommaWsF n (rest.dropWhile pyIsSpace)
  | n + 1, c :: rest =>
      match splitCommaWsF n rest with
      | [] => [[c]]
      | seg :: segs => (c :: seg) :: segs

def splitCommaWs (l : List Char) : List (List Char) := splitCommaWsF l.length l

/-- Python `s.split(',')`. -/
def splitComma : List Char → List (List Char)
  | [] => [[]]
  | ',' :: rest => [] :: splitComma rest
  | c :: rest =>
      match splitComma rest with
      | [] => [[c]]
      | seg :: segs => (c :: seg) :: segs

/-- `PASCAL_KEYWORDS` from `backend/constants.py`. -/
def pascalKeywords : List (List Char) :=
  ["and", "abs", "array", "as", "begin", "case", "class", "const", "constructor",
   "continue", "destructor", "div", "do", "downto", "else", "end", "enum",
   "except", "exports", "file", "finalization", "finally", "for", "foreach",
   "forward", "function", "goto", "if", "implementation", "in", "inherited",
   "initialization", "inline", "interface", "is", "label", "mod", "new",
   "nil", "not", "object", "of", "operator", "or", "packed", "procedure",
   "program", "property", "raise", "record", "repeat", "sealed", "set",
   "shl", "shr", "static", "string", "then", "to", "try", "type",
   "unit", "until", "uses", "var", "while", "with", "xor",
   "true", "false",
   "integer", "real", "boolean", "char",
   "private", "protected", "public", "internal",
   "yield", "break"].map String.toList

/-! ## Semantic analyzer (`backend/sema.py`) -/

/-- `Symbol` (field `array_size` is an `Int × Int` pair; `line`/`pos`
are `None` until a position is recorded). -/
structure Symbol where
  name : List Char
  baseType : List Char
  isArray : Bool
  arraySize : Int × Int
  declared : Bool
  line : Option Nat
  pos : Option Nat
deriving DecidableEq, Repr

/-- The property `Symbol.type`: `array[low..high] of base` for arrays,
else the base type. -/
def symbolType (s : Symbol) : List Char :=
  if s.isArray then
    "array[".toList ++ intToChars s.arraySize.1 ++ "..".toList ++
      intToChars s.arraySize.2 ++ "] of ".toList ++ s.baseType
  else s.baseType

/-- The symbol table: a Python dict keyed by name, i.e. an
insertion-ordered association list with unique keys. -/
abbrev SymTable := List (List Char × Symbol)

def lookupSym (tbl : SymTable) (name : List Char) : Option Symbol :=
  List.lookup name tbl

/-- The keyword arguments of `SymbolTable.define` (Python default
values made explicit). -/
structure DefineArgs where
  varType : List Char
  isArray : Bool
  arraySize : Option (Int × Int)
  declared : Bool
  line : Option Nat
  pos : Option Nat
deriving DecidableEq, Repr

/-- The Python defaults: `var_type='integer', is_array=False,
array_size=None, declared=False, line=None, pos=None`. -/
def defaultArgs : DefineArgs :=
  ⟨"integer".toList, false, none, false, none, none⟩

/-- The position stamp of `SymbolTable.define`: `line`/`pos` keep the
earliest occurrence seen. -/
def defineStamp (ex2 : Symbol) (a : DefineArgs) : Symbol :=
  match a.line, a.pos with
  | some l, some p =>
      (match ex2.line with
       | none => { ex2 with line := some l, pos := some p }
       | some el => if l < el then { ex2 with line := some l, pos := some p } else ex2)
  | _, _ => ex2

/-- The re-definition update of `SymbolTable.define`: the mutations the
Python method applies to an existing `Symbol`. -/
def defineUpdate (ex : Symbol) (a : DefineArgs) : Symbol :=
  let ex1 :=
    if a.isArray then
      let exA := { ex with isArray := true }
      let exB := match a.arraySize with
        | some sz => { exA with arraySize := sz }
        | none => exA
      if a.varType = "real".toList ∧ exB.baseType = "integer".toList then
        { exB with baseType := "real".toList }
      else exB
    else if a.varType = "real".toList ∧ ex.baseType = "integer".toList then
      { ex with baseType := "real".toList }
    else ex
  defineStamp (if a.declared then { ex1 with declared := true } else ex1) a

/-- `SymbolTable.define`. -/
def defineSym (tbl : SymTable) (name : List Char) (a : DefineArgs) : SymTable :=
  match lookupSym tbl name with
  | none =>
      tbl ++ [(name, ⟨name, a.varType, a.isArray, a.arraySize.getD (0, 100),
                      a.declared, a.line, a.pos⟩)]
  | some ex =>
      tbl.map fun kv => if kv.1 = name then (kv.1, defineUpdate ex a) else kv

/-- `re.split(r'([+\-*/()])', expr)` — split keeping the one-character
delimiters. -/
def isOpParen (c : Char) : Bool :=
  c = '+' || c = '-' || c = '*' || c = '/' || c = '(' || c = ')'

def splitKeepOps : List Char → List (List Char)
  | [] => [[]]
  | c :: rest =>
    if isOpParen c then
      match splitKeepOps rest with
      | segs => [] :: [c] :: segs
    else
      match splitKeepOps rest with
      | [] => [[c]]
      | seg :: segs => (c :: seg) :: segs

/-- `re.findall(r'[a-zA-Z_][a-zA-Z0-9_]*|[\d.]+|[+\-*/()]', expr)`:
left-to-right scan, alternatives tried in order, non-matching
characters skipped. -/
def digitOrDot (c : Char) : Bool := isAsciiDigit c || c = '.'

def findallTokensF : Nat → List Char → List (List Char)
  | 0, _ => []
  | _ + 1, [] => []
  | n + 1, c :: rest =>
    if isIdentStart c then
      (c :: rest.takeWhile isIdentChar) :: findallTokensF n (rest.dropWhile isIdentChar)
    else if digitOrDot c then
      (c :: rest.takeWhile digitOrDot) :: findallTokensF n (rest.dropWhile digitOrDot)
    else if isOpParen c then
      [c] :: findallTokensF n rest
    else findallTokensF n rest

def findallTokens (l : List Char) : List (List Char) := findallTokensF l.length l

/-- `re.search(r'[^/]=/\s*[^/]', expr)`: since `[^/]` also matches
whitespace, the `\s*` never has to skip anything, and the search reduces
to a four-character window test. -/
def divSearch1 : List Char → Bool
  | a :: b :: c :: d :: rest =>
    (a ≠ '/' && b = '=' && c = '/' && d ≠ '/') || divSearch1 (b :: c :: d :: rest)
  | _ => false

/-- `re.search(r'[^<>=]/[^=]', expr)`: a three-character window test. -/
def divSearch2 : List Char → Bool
  | a :: b :: c :: rest =>
    (a ≠ '<' && a ≠ '>' && a ≠ '=' && b = '/' && c ≠ '=') || divSearch2 (b :: c :: rest)
  | _ => false

theorem length_pyStrip_le (s : List Char) : (pyStrip s).length ≤ s.length := by
  unfold pyStrip pyRstrip pyLstrip
  have h1 := length_dropWhile_le' pyIsSpace s
  have h2 := length_dropWhile_le' pyIsSpace (s.dropWhile pyIsSpace).reverse
  simp only [List.length_reverse] at *
  omega

/-- `SemanticAnalyzer.infer_type`.  The recursion through the `abs(...)`
unwrapping shortens the expression by at least five characters, so one
unit of fuel per character is ample. -/
def inferTypeF : Nat → SymTable → List Char → List Char
  | 0, _, _ => "integer".toList
  | n + 1, tbl, expressionStr =>
    let expr := pyStrip expressionStr
    if "abs(".toList.isPrefixOf expr ∧ expr.getLast? = some ')' then
      inferTypeF n tbl (pyStrip ((expr.drop 4).dropLast))
    else
      match arrayAccessMatch expr with
      | some (arrName, _) =>
          (match lookupSym tbl arrName with
           | some sym => if sym.isArray then sym.baseType else "integer".toList
           | none => "integer".toList)
      | none =>
        if pyQuotedMatch expr then "string".toList
        else if pyLower expr = "true".toList ∨ pyLower expr = "false".toList then
          "boolean".toList
        else if numLitMatch expr then
          (if '.' ∈ expr ∨ 'e' ∈ pyLower expr then "real".toList else "integer".toList)
        else if identMatchDollar expr then
          (match lookupSym tbl expr with
           | some sym => symbolType sym
           | none => "integer".toList)
        else if (divSearch1 expr || divSearch2 expr) &&
            (splitKeepOps expr).any (fun t => pyStrip t = ['/']) then
          "real".toList
        else if (findallTokens expr).any (fun tok =>
            if identFullMatch tok then
              (match lookupSym tbl tok with
               | some sym => symbolType sym = "real".toList
               | none => false)
            else if numTokMatch tok then '.' ∈ tok
            else false) then
          "real".toList
        else "integer".toList

def inferType (tbl : SymTable) (expressionStr : List Char) : List Char :=
  inferTypeF (expressionStr.length + 1) tbl expressionStr

/-- The state of a `SemanticAnalyzer` run. -/
structure SemState where
  table : SymTable
  errors : List (List Char)
  warnings : List (List Char)

def semErr (s : SemState) (m : List Char) : SemState :=
  { s with errors := s.errors ++ [m] }

def semWarn (s : SemState) (m : List Char) : SemState :=
  { s with warnings := s.warnings ++ [m] }

def semPos (line pos : Nat) : List Char :=
  ['('] ++ natToChars line ++ [','] ++ natToChars pos ++ "): ".toList

/-- `SemanticAnalyzer._analyze_action_content`. -/
def analyzeActionContent (content0 : List Char) (line pos : Nat) (s : SemState) : SemState :=
  let content := pyStrip content0
  if "Ввод:".toList.isPrefixOf content then
    let varsStr := pyStrip (content.drop 5)
    let varNames := (splitCommaWs varsStr).map pyStrip |>.filter (· ≠ [])
    varNames.foldl (fun s vn =>
      if identMatchDollar vn then
        { s with table := (defineSym s.table vn
            { defaultArgs with varType := "integer".toList, declared := true,
                                line := some line, pos := some pos }) }
      else
        semErr s ("Ошибка ".toList ++ semPos line pos ++
          "Неверное имя переменной в Ввод: '".toList ++ vn ++ [squote])) s
  else if "Вывод:".toList.isPrefixOf content then
    let outputContent := pyStrip (content.drop 6)
    if outputContent = [] then
      semWarn s ("Предупреждение ".toList ++ semPos line pos ++ "Пустой вывод".toList)
    else
      let parts := (splitComma outputContent).map pyStrip
      parts.foldl (fun s part =>
        if part = [] then s
        else if pyQuotedMatch part then s
        else if identFullMatch part then
          let s :=
            match lookupSym s.table part with
            | some _ => s
            | none =>
                semWarn s ("Предупреждение ".toList ++ semPos line pos ++
                  "Переменная '".toList ++ part ++
                  "' используется в 'Вывод:', но не объявлена ранее.".toList)
          { s with table := (defineSym s.table part
              { defaultArgs with line := some line, pos := some pos }) }
        else s) s
  else
    match arrayAssignMatch content with
    | some (arrName, indexExpr0, _, valueExpr0) =>
      let indexExpr := pyStrip indexExpr0
      let valueExpr := pyStrip valueExpr0
      let valueType := inferType s.table valueExpr
      let s := { s with table := (defineSym s.table arrName
          { defaultArgs with varType := valueType, isArray := true, declared := true,
                              line := some line, pos := some pos }) }
      (findIdents indexExpr).foldl (fun s idxVar =>
        if pyLower idxVar ∈ pascalKeywords then s
        else { s with table := (defineSym s.table idxVar
            { defaultArgs with line := some line, pos := some pos }) }) s
    | none =>
      match simpleAssignMatch content with
      | some (varName, _, expression0) =>
        let expression := pyStrip expression0
        let varType := inferType s.table expression
        let s := { s with table := (defineSym s.table varName
            { defaultArgs with varType := varType, declared := true,
                                line := some line, pos := some pos }) }
        (findIdents expression).foldl (fun s usedVar =>
          if usedVar = varName then s
          else
            let s :=
              match lookupSym s.table usedVar with
              | some _ => s
              | none =>
                  semWarn s ("Предупреждение ".toList ++ semPos line pos ++
                    "Переменная '".toList ++ usedVar ++
                    "' используется в выражении, но не объявлена ранее.".toList)
            { s with table := (defineSym s.table usedVar
                { defaultArgs with line := some line, pos := some pos }) }) s
      | none =>
        semErr s ("Ошибка ".toList ++ semPos line pos ++
          "Недопустимое содержимое блока: '".toList ++ content ++
          "'. Разрешены только: 'Ввод: ...', 'Вывод: ...', или 'переменная := выражение'.".toList)

/-- `SemanticAnalyzer._analyze_condition_content`. -/
def analyzeConditionContent (content0 : List Char) (line pos : Nat) (s : SemState) : SemState :=
  let content := pyReplace content0 "!=".toList "<>".toList
  match forLoopMatch content with
  | some (counterVar, startExpr0, _, endExpr0) =>
    let startExpr := pyStrip startExpr0
    let endExpr := pyStrip endExpr0
    let s := { s with table := (defineSym s.table counterVar
        { defaultArgs with varType := "integer".toList, declared := true,
                            line := some line, pos := some pos }) }
    [startExpr, endExpr].foldl (fun s expr =>
      (findIdents expr).foldl (fun s v =>
        if pyLower v ∈ pascalKeywords then s
        else { s with table := (defineSym s.table v
            { defaultArgs with line := some line, pos := some pos }) }) s) s
  | none =>
    (findIdents content).foldl (fun s varName =>
      if pyLower varName ∈ pascalKeywords then s
      else
        let s :=
          match lookupSym s.table varName with
          | some _ => s
          | none =>
              semWarn s ("Предупреждение ".toList ++ semPos line pos ++
                "Переменная '".toList ++ varName ++
                "' используется в условии, но не объявлена ранее.".toList)
        { s with table := (defineSym s.table varName
            { defaultArgs with declared := true, line := some line, pos := some pos }) }) s

/-- `SemanticAnalyzer._process_node` (only `action_content` and
`condition_content` nodes with a truthy value are analyzed). -/
def semProcessNode (s : SemState) (n : PNode) : SemState :=
  match n.value with
  | some v =>
    if v ≠ [] then
      if n.ntype = "action_content".toList then analyzeActionContent v n.line n.pos s
      else if n.ntype = "condition_content".toList then analyzeConditionContent v n.line n.pos s
      else s
    else s
  | none => s

mutual

/-- `SemanticAnalyzer._visit`: pre-order traversal, fuelled by one unit
per traversal step (`pnodeSize n + 1` strictly dominates the depth of
the call tree). -/
def semVisitF : Nat → SemState → PNode → SemState
  | 0, s, _ => s
  | n + 1, s, nd => semVisitListF n (semProcessNode s nd) nd.children

def semVisitListF : Nat → SemState → List PNode → SemState
  | 0, s, _ => s
  | _ + 1, s, [] => s
  | n + 1, s, c :: rest => semVisitListF n (semVisitF n s c) rest

end

def semVisit (s : SemState) (n : PNode) : SemState := semVisitF (pnodeSize n + 1) s n

/-- `SemanticAnalyzer.analyze`: fresh state, then the traversal;
returns `(symbol table, errors, warnings)`. -/
def semAnalyze (root : PNode) : SymTable × List (List Char) × List (List Char) :=
  let s := semVisit ⟨[], [], []⟩ root
  (s.table, s.errors, s.warnings)

/-- `SemanticAnalyzer.get_all_issues`: errors matching
`Ошибка \((\d+),(\d+)\): (.+)` and warnings matching
`Предупреждение \((\d+),(\d+)\): (.+)` (non-matching messages are
dropped; all messages this analyzer produces match). -/
def issueOne (source : List Char) (kind : List Char) (prefixWord : List Char)
    (msg : List Char) : Option Diag := do
  let r1 ← dropExact (prefixWord ++ " (".toList) msg
  let (l, r2) ← parseDigits r1
  let r3 ← dropExact [','] r2
  let (p, r4) ← parseDigits r3
  let r5 ← dropExact "): ".toList r4
  let m ← dotPlusCapture r5
  pure ⟨kind, (l : Int), (p : Int), m, source⟩

def getAllIssues (errors warnings : List (List Char)) : List Diag :=
  (errors.filterMap fun m =>
    issueOne "semantic".toList "error".toList "Ошибка".toList m) ++
  (warnings.filterMap fun m =>
    issueOne "semantic".toList "warning".toList "Предупреждение".toList m)

/-! ## Code generator (`backend/code_generator.py`, class
`PascalCodeGenerator`)

Every method of the Python class is wrapped in `try/except`; in this
embedding every operation is total, so no exception can occur and no
`except` branch is reachable (the one observable `except`-path,
`generate`'s outermost handler, would return a fixed string — it is
unreachable here for the same reason).  Symbol names in the model are
always present, so the `base_name is None` guard of
`_generate_var_section` has no counterpart. -/

structure GenState where
  codeLines : List (List Char)
  errors : List Diag
  indentLevel : Int
deriving DecidableEq, Repr

/-- `_record_error` (default `source_pos=-1`, which every call site
leaves in place). -/
def genRecordError (g : GenState) (message : List Char) (sourceLine : Int) : GenState :=
  { g with errors := g.errors ++
      [⟨"error".toList, sourceLine, -1, message, "generator".toList⟩] }

/-- `_add_line`: `"    " * indent_level` (an empty indent when the level
is not positive, as for Python's string repetition). -/
def indentStr (level : Int) : List Char := List.replicate (4 * level.toNat) ' '

def addLine (g : GenState) (line : List Char) : GenState :=
  { g with codeLines := g.codeLines ++ [indentStr g.indentLevel ++ line] }

/-- `_process_string_literals`: `re.split(r'(["\'].*?["\'])', expr)`
keeping the captured quoted spans; a span starts at a quote of either
kind and ends at the next quote of either kind with no newline between
(lazy `.*?`), scanning left to right. -/
def splitQuotedSpansF : Nat → List Char → List (List Char)
  | 0, _ => [[]]
  | _ + 1, [] => [[]]
  | n + 1, c :: rest =>
    if isQuoteChar c then
      match rest.dropWhile (fun d => dotNoNl d && !isQuoteChar d) with
      | d :: rest2 =>
        if isQuoteChar d then
          [] :: (c :: rest.takeWhile (fun d => dotNoNl d && !isQuoteChar d) ++ [d]) ::
            splitQuotedSpansF n rest2
        else
          -- a newline stopped the scan: no quoted span starts at `c`
          (match splitQuotedSpansF n rest with
           | [] => [[c]]
           | seg :: segs => (c :: seg) :: segs)
      | [] =>
          (match splitQuotedSpansF n rest with
           | [] => [[c]]
           | seg :: segs => (c :: seg) :: segs)
    else
      match splitQuotedSpansF n rest with
      | [] => [[c]]
      | seg :: segs => (c :: seg) :: segs

def splitQuotedSpans (l : List Char) : List (List Char) := splitQuotedSpansF l.length l

/-- Requote a matched quoted span: strip the outer quotes, double the
inner single quotes. -/
def requote (part : List Char) : List Char :=
  let inner := (part.drop 1).dropLast
  let escaped := pyReplace inner [squote] [squote, squote]
  squote :: escaped ++ [squote]

def processStringLiterals (expr : List Char) : List Char :=
  if expr = [] then expr
  else
    ((splitQuotedSpans expr).filter (· ≠ [])).foldl (fun acc part =>
      if pyQuotedMatch part then acc ++ requote part else acc ++ part) []

/-- `_generate_var_section`: group symbols by their rendered type
(skipping reserved words), then emit one line per type, names sorted
inside a group and groups sorted by type name.  Python's `sorted` on
strings is lexicographic on code points. -/
def charListLt : List Char → List Char → Bool
  | [], [] => false
  | [], _ :: _ => true
  | _ :: _, [] => false
  | a :: as, b :: bs => if a < b then true else if b < a then false else charListLt as bs

/-- A stable ascending sort (Python `sorted`); equal keys do not occur
at the call sites (type strings and symbol names are deduplicated), so
any sort realises `sorted`. -/
def insertSorted (x : List Char) : List (List Char) → List (List Char)
  | [] => [x]
  | y :: rest => if charListLt y x then y :: insertSorted x rest else x :: y :: rest

def sortCharLists (l : List (List Char)) : List (List Char) :=
  l.foldr insertSorted []

def genVarSection (g : GenState) (tbl : SymTable) : GenState :=
  let pairs := (tbl.map Prod.snd).filterMap fun sym =>
    if pyLower sym.name ∈ pascalKeywords then none
    else some (symbolType sym, sym.name)
  if pairs.isEmpty then g
  else
    let types := sortCharLists ((pairs.map Prod.fst).eraseDups)
    let g := addLine g "VAR".toList
    let g := types.foldl (fun g ty =>
      let names := sortCharLists (((pairs.filter (·.1 = ty)).map Prod.snd).eraseDups)
      addLine g (joinSep ", ".toList names ++ ": ".toList ++ ty ++ [';'])) g
    addLine g []

/-- `_generate_action`. -/
def genAction (g : GenState) (content0 : Option (List Char)) (line : Int) : GenState :=
  match content0 with
  | none => genRecordError g "Пустое содержимое действия".toList line
  | some c0 =>
    if c0 = [] then genRecordError g "Пустое содержимое действия".toList line
    else
      let content := pyReplace (pyStrip c0) "!=".toList "<>".toList
      if "Ввод:".toList.isPrefixOf content then
        let varsStr := pyStrip (content.drop 5)
        if varsStr = [] then
          genRecordError g "Пустой список переменных в Ввод:".toList line
        else
          let varNames := (splitCommaWs varsStr).map pyStrip |>.filter (· ≠ [])
          if varNames.isEmpty then g
          else addLine g ("readln(".toList ++ joinSep ", ".toList varNames ++ ");".toList)
      else if "Вывод:".toList.isPrefixOf content then
        let outputContent := pyStrip (content.drop 6)
        if outputContent = [] then addLine g "writeln();".toList
        else
          let parts := (splitComma outputContent).map pyStrip
          let processed := parts.filterMap fun part =>
            if part = [] then none
            else if pyQuotedMatch part then some (requote part)
            else if identFullMatch part then some part
            else some (squote :: pyReplace part [squote] [squote, squote] ++ [squote])
          addLine g ("writeln(".toList ++ joinSep ", ".toList processed ++ ");".toList)
      else
        match simpleAssignMatch content with
        | some (varName, _, expr0) =>
          let expression := pyStrip expr0
          if pyQuotedMatch expression then
            let inner :=
              if expression.headD nulChar = '"' ∧ expression.getLastD nulChar = '"' then
                (expression.drop 1).dropLast
              else if expression.headD nulChar = squote ∧ expression.getLastD nulChar = squote then
                (expression.drop 1).dropLast
              else expression
            let escaped := pyReplace inner [squote] [squote, squote]
            addLine g (varName ++ " := ".toList ++ (squote :: escaped ++ [squote]) ++ [';'])
          else
            addLine g (varName ++ " := ".toList ++ expression ++ [';'])
        | none =>
          if content ≠ [] then addLine g (content ++ [';'])
          else g

/-- The `for child in node.children` scans of `_generate_if` /
`_generate_while` / `_generate_repeat_until`: the value of the last
child of the given type wins (`condition_content` values are passed
through `!=` → `<>`). -/
def lastCondValue (n : PNode) : List Char :=
  n.children.foldl (fun acc c =>
    if c.ntype = "condition_content".toList then
      pyReplace (c.value.getD []) "!=".toList "<>".toList
    else acc) []

def lastChildOfType (n : PNode) (ty : List Char) : Option PNode :=
  n.children.foldl (fun acc c => if c.ntype = ty then some c else acc) none

theorem foldl_lastChild_mem {l : List PNode} {ty : List Char} {init : Option PNode} {x : PNode}
    (h : l.foldl (fun acc c => if c.ntype = ty then some c else acc) init = some x) :
    x ∈ l ∨ init = some x := by
  induction l generalizing init with
  | nil => right; exact h
  | cons c rest ih =>
    rw [List.foldl_cons] at h
    rcases ih h with hm | hinit
    · left
      exact List.mem_cons_of_mem _ hm
    · have hinit' : (if c.ntype = ty then some c else init) = some x := hinit
      by_cases hc : c.ntype = ty
      · rw [if_pos hc] at hinit'
        cases hinit'
        left
        exact List.mem_cons_self _ _
      · rw [if_neg hc] at hinit'
        right
        exact hinit'

theorem lastChildOfType_sizeOf (n : PNode) (ty : List Char) :
    ∀ x, lastChildOfType n ty = some x → sizeOf x < sizeOf n := by
  intro x hx
  unfold lastChildOfType at hx
  rcases foldl_lastChild_mem hx with hm | hinit
  · have h1 := List.sizeOf_lt_of_mem hm
    cases n
    simp only [PNode.mk.sizeOf_spec]
    simp at h1 ⊢
    omega
  · exact absurd hinit (by simp)

mutual

/-- `PascalCodeGenerator._visit`, fuelled by one unit per traversal
step (`pnodeSize n + 1` strictly dominates the depth of the call
tree). -/
def genVisitF : Nat → GenState → PNode → GenState
  | 0, g, _ => g
  | n + 1, g, nd =>
    if nd.ntype = "program".toList then genVisitListF n g nd.children
    else if nd.ntype = "start_node".toList then g
    else if nd.ntype = "action_node".toList then
      nd.children.foldl (fun g c =>
        if c.ntype = "action_content".toList then genAction g c.value (nd.line : Int)
        else g) g
    else if nd.ntype = "if_statement".toList then genIfF n g nd
    else if nd.ntype = "while_loop_node".toList then genWhileF n g nd
    else if nd.ntype = "repeat_until_loop_node".toList then genRepeatUntilF n g nd
    else if nd.ntype = "stop_node".toList then g
    else if nd.ntype = "then_branch".toList ∨ nd.ntype = "else_branch".toList ∨
        nd.ntype = "while_body".toList ∨ nd.ntype = "repeat_body".toList then
      genVisitListF n g nd.children
    else if nd.ntype = "startuml_keyword".toList ∨ nd.ntype = "enduml_keyword".toList ∨
        nd.ntype = "condition_content".toList ∨ nd.ntype = "branch_label".toList then g
    else genVisitListF n g nd.children

def genVisitListF : Nat → GenState → List PNode → GenState
  | 0, g, _ => g
  | _ + 1, g, [] => g
  | n + 1, g, c :: rest => genVisitListF n (genVisitF n g c) rest

/-- `_generate_if`. -/
def genIfF : Nat → GenState → PNode → GenState
  | 0, g, _ => g
  | n + 1, g, nd =>
    let condition := lastCondValue nd
    if condition = [] then
      genRecordError g "Отсутствует условие в IF-операторе".toList (nd.line : Int)
    else
      let g := addLine g ("IF (".toList ++ condition ++ ") THEN".toList)
      let g := addLine g "BEGIN".toList
      let g := { g with indentLevel := g.indentLevel + 1 }
      let g :=
        match lastChildOfType nd "then_branch".toList with
        | some tb => genVisitListF n g tb.children
        | none => g
      let g := { g with indentLevel := g.indentLevel - 1 }
      let g := addLine g "END".toList
      let g :=
        match lastChildOfType nd "else_branch".toList with
        | some eb =>
          let g := addLine g "ELSE".toList
          let g := addLine g "BEGIN".toList
          let g := { g with indentLevel := g.indentLevel + 1 }
          let g := genVisitListF n g eb.children
          let g := { g with indentLevel := g.indentLevel - 1 }
          addLine g "END".toList
        | none => g
      addLine g [';']

/-- `_generate_while`, including the counting-loop recognition through
`FOR_LOOP_PATTERN`. -/
def genWhileF : Nat → GenState → PNode → GenState
  | 0, g, _ => g
  | n + 1, g, nd =>
    let condition := lastCondValue nd
    if condition = [] then
      genRecordError g "Отсутствует условие в цикле".toList (nd.line : Int)
    else
      match lastChildOfType nd "while_body".toList with
      | none => genRecordError g "Отсутствует тело цикла".toList (nd.line : Int)
      | some b =>
        match forLoopMatch condition with
        | some (counterVar, startE, dir, endE) =>
          let startValue := processStringLiterals (pyStrip startE)
          let direction := pyUpper dir
          let endValue := processStringLiterals (pyStrip endE)
          let g := addLine g ("FOR ".toList ++ counterVar ++ " := ".toList ++ startValue ++
            [' '] ++ direction ++ [' '] ++ endValue ++ " DO".toList)
          let g := addLine g "BEGIN".toList
          let g := { g with indentLevel := g.indentLevel + 1 }
          let g := genVisitListF n g b.children
          let g := { g with indentLevel := g.indentLevel - 1 }
          addLine g "END;".toList
        | none =>
          let g := addLine g ("WHILE (".toList ++ condition ++ ") DO".toList)
          let g := addLine g "BEGIN".toList
          let g := { g with indentLevel := g.indentLevel + 1 }
          let g := genVisitListF n g b.children
          let g := { g with indentLevel := g.indentLevel - 1 }
          addLine g "END;".toList

/-- `_generate_repeat_until`. -/
def genRepeatUntilF : Nat → GenState → PNode → GenState
  | 0, g, _ => g
  | n + 1, g, nd =>
    let condition := lastCondValue nd
    match lastChildOfType nd "repeat_body".toList with
    | none => genRecordError g "Отсутствует тело REPEAT-UNTIL цикла".toList (nd.line : Int)
    | some b =>
      if condition = [] then
        genRecordError g "Отсутствует условие UNTIL".toList (nd.line : Int)
      else
        let g := addLine g "REPEAT".toList
        let g := { g with indentLevel := g.indentLevel + 1 }
        let g := genVisitListF n g b.children
        let g := { g with indentLevel := g.indentLevel - 1 }
        addLine g ("UNTIL (".toList ++ condition ++ ");".toList)

end

def genVisit (g : GenState) (n : PNode) : GenState := genVisitF (pnodeSize n + 1) g n

def genWhile (g : GenState) (n : PNode) : GenState := genWhileF (pnodeSize n + 1) g n

/-- The generator only appends code lines: `gNew` extends `g`. -/
def extendsCode (g gNew : GenState) : Prop :=
  ∃ t, gNew.codeLines = g.codeLines ++ t

theorem extendsCode_refl (g : GenState) : extendsCode g g := ⟨[], by simp⟩

theorem extendsCode_trans {a b c : GenState} (h1 : extendsCode a b)
    (h2 : extendsCode b c) : extendsCode a c := by
  obtain ⟨t1, e1⟩ := h1
  obtain ⟨t2, e2⟩ := h2
  exact ⟨t1 ++ t2, by rw [e2, e1, List.append_assoc]⟩

theorem extendsCode_addLine_of {g h : GenState} (e : extendsCode g h) (l : List Char) :
    extendsCode g (addLine h l) :=
  extendsCode_trans e ⟨[indentStr h.indentLevel ++ l], rfl⟩

theorem extendsCode_recordError_of {g h : GenState} (e : extendsCode g h)
    (m : List Char) (sl : Int) : extendsCode g (genRecordError h m sl) :=
  extendsCode_trans e ⟨[], by simp [genRecordError]⟩

theorem extendsCode_indent_of {g h : GenState} (e : extendsCode g h) (lv : Int) :
    extendsCode g { h with indentLevel := lv } :=
  extendsCode_trans e ⟨[], by simp⟩

theorem extendsCode_genAction_of {g h : GenState} (e : extendsCode g h)
    (c : Option (List Char)) (line : Int) : extendsCode g (genAction h c line) := by
  refine extendsCode_trans e ?_
  simp only [genAction]
  repeat' split
  all_goals first
    | exact extendsCode_refl _
    | exact ⟨[indentStr _ ++ _], rfl⟩
    | exact ⟨[], by simp [genRecordError]⟩

theorem extendsCode_foldl {α : Type} {f : GenState → α → GenState}
    (hf : ∀ g a, extendsCode g (f g a)) :
    ∀ (l : List α) (g : GenState), extendsCode g (l.foldl f g) := by
  intro l
  induction l with
  | nil => intro g; exact extendsCode_refl g
  | cons c rest ih =>
    intro g
    rw [List.foldl_cons]
    exact extendsCode_trans (hf g c) (ih (f g c))

/-- Every generator visitor only appends code lines (simultaneous fuel
induction over the mutual family). -/
theorem genVisitF_extends : ∀ n : Nat,
    (∀ g x, extendsCode g (genVisitF n g x)) ∧
    (∀ g l, extendsCode g (genVisitListF n g l)) ∧
    (∀ g x, extendsCode g (genIfF n g x)) ∧
    (∀ g x, extendsCode g (genWhileF n g x)) ∧
    (∀ g x, extendsCode g (genRepeatUntilF n g x)) := by
  intro n
  induction n with
  | zero =>
    exact ⟨fun g _ => extendsCode_refl g, fun g _ => extendsCode_refl g,
      fun g _ => extendsCode_refl g, fun g _ => extendsCode_refl g,
      fun g _ => extendsCode_refl g⟩
  | succ n ih =>
    obtain ⟨ihV, ihL, ihI, ihW, ihR⟩ := ih
    refine ⟨?_, ?_, ?_, ?_, ?_⟩
    · intro g x
      simp only [genVisitF]
      split_ifs
      · exact ihL g x.children
      · exact extendsCode_refl g
      · refine extendsCode_foldl (fun g c => ?_) x.children g
        dsimp only
        split
        · exact extendsCode_genAction_of (extendsCode_refl g) _ _
        · exact extendsCode_refl g
      · exact ihI g x
      · exact ihW g x
      · exact ihR g x
      · exact extendsCode_refl g
      · exact ihL g x.children
      · exact extendsCode_refl g
      · exact ihL g x.children
    · intro g l
      cases l with
      | nil => exact extendsCode_refl g
      | cons c rest =>
        show extendsCode g (genVisitListF n (genVisitF n g c) rest)
        exact extendsCode_trans (ihV g c) (ihL _ rest)
    · intro g x
      simp only [genIfF]
      split
      · exact extendsCode_recordError_of (extendsCode_refl g) _ _
      · cases htb : lastChildOfType x ("then_branch".toList) <;>
          cases heb : lastChildOfType x ("else_branch".toList) <;>
          simp only [htb, heb]
        · refine extendsCode_addLine_of ?_ _
          refine extendsCode_addLine_of ?_ _
          refine extendsCode_indent_of ?_ _
          refine extendsCode_addLine_of ?_ _
          exact extendsCode_addLine_of (extendsCode_refl g) _
        · refine extendsCode_addLine_of ?_ _
          refine extendsCode_addLine_of ?_ _
          refine extendsCode_indent_of ?_ _
          refine extendsCode_trans ?_ (ihL _ _)
          refine extendsCode_indent_of ?_ _
          refine extendsCode_addLine_of ?_ _
          refine extendsCode_addLine_of ?_ _
          refine extendsCode_addLine_of ?_ _
          refine extendsCode_indent_of ?_ _
          refine extendsCode_addLine_of ?_ _
          exact extendsCode_addLine_of (extendsCode_refl g) _
        · refine extendsCode_addLine_of ?_ _
          refine extendsCode_addLine_of ?_ _
          refine extendsCode_indent_of ?_ _
          refine extendsCode_trans ?_ (ihL _ _)
          refine extendsCode_indent_of ?_ _
          refine extendsCode_addLine_of ?_ _
          exact extendsCode_addLine_of (extendsCode_refl g) _
        · refine extendsCode_addLine_of ?_ _
          refine extendsCode_addLine_of ?_ _
          refine extendsCode_indent_of ?_ _
          refine extendsCode_trans ?_ (ihL _ _)
          refine extendsCode_indent_of ?_ _
          refine extendsCode_addLine_of ?_ _
          refine extendsCode_addLine_of ?_ _
          refine extendsCode_addLine_of ?_ _
          refine extendsCode_indent_of ?_ _
          refine extendsCode_trans ?_ (ihL _ _)
          refine extendsCode_indent_of ?_ _
          refine extendsCode_addLine_of ?_ _
          exact extendsCode_addLine_of (extendsCode_refl g) _
    · intro g x
      simp only [genWhileF]
      split
      · exact extendsCode_recordError_of (extendsCode_refl g) _ _
      · cases hb : lastChildOfType x ("while_body".toList) <;> simp only [hb]
        · exact extendsCode_recordError_of (extendsCode_refl g) _ _
        · rcases hf : forLoopMatch (lastCondValue x) with _ | ⟨cv, se, dir, ee⟩ <;>
            simp only [hf]
          · refine extendsCode_addLine_of ?_ _
            refine extendsCode_indent_of ?_ _
            refine extendsCode_trans ?_ (ihL _ _)
            refine extendsCode_indent_of ?_ _
            refine extendsCode_addLine_of ?_ _
            exact extendsCode_addLine_of (extendsCode_refl g) _
          · refine extendsCode_addLine_of ?_ _
            refine extendsCode_indent_of ?_ _
            refine extendsCode_trans ?_ (ihL _ _)
            refine extendsCode_indent_of ?_ _
            refine extendsCode_addLine_of ?_ _
            exact extendsCode_addLine_of (extendsCode_refl g) _
    · intro g x
      simp only [genRepeatUntilF]
      cases hb : lastChildOfType x ("repeat_body".toList) <;> simp only [hb]
      · exact extendsCode_recordError_of (extendsCode_refl g) _ _
      · split
        · exact extendsCode_recordError_of (extendsCode_refl g) _ _
        · refine extendsCode_addLine_of ?_ _
          refine extendsCode_indent_of ?_ _
          refine extendsCode_trans ?_ (ihL _ _)
          refine extendsCode_indent_of ?_ _
          exact extendsCode_addLine_of (extendsCode_refl g) _

/-- The `header, BEGIN, body, END`-shaped block every loop emits: the
two header lines appear directly after the caller's lines. -/
theorem genBlockChain (g : GenState) (l1 l2 l3 : List Char) (n : Nat) (cs : List PNode) :
    List.IsPrefix
      (g.codeLines ++ [indentStr g.indentLevel ++ l1, indentStr g.indentLevel ++ l2])
      (addLine { (genVisitListF n { (addLine (addLine g l1) l2) with
            indentLevel := (addLine (addLine g l1) l2).indentLevel + 1 } cs) with
          indentLevel := (genVisitListF n { (addLine (addLine g l1) l2) with
            indentLevel := (addLine (addLine g l1) l2).indentLevel + 1 } cs).indentLevel - 1 }
        l3).codeLines := by
  obtain ⟨t, ht⟩ := (genVisitF_extends n).2.1
    { (addLine (addLine g l1) l2) with
      indentLevel := (addLine (addLine g l1) l2).indentLevel + 1 } cs
  simp only [addLine] at ht
  simp only [List.append_assoc, List.singleton_append] at ht
  refine ⟨t ++ [indentStr ((genVisitListF n { (addLine (addLine g l1) l2) with
      indentLevel := (addLine (addLine g l1) l2).indentLevel + 1 } cs).indentLevel - 1) ++ l3], ?_⟩
  simp only [addLine, List.append_assoc, List.singleton_append]
  rw [ht]
  simp

/-- `_validate_program_node` (never called with `None` — `generate`
returns earlier in that case). -/
def validateProgramNode (g : GenState) (n : PNode) : Bool × GenState :=
  if n.ntype ≠ "program".toList then
    (false, genRecordError g ("Ожидался узел типа 'program', получен '".toList ++
      n.ntype ++ [squote]) (-1))
  else (true, g)

/-- The state `PascalCodeGenerator.generate` builds for a present root:
header, variable section, `BEGIN`, the lowered children (skipping the
`@startuml`/`@enduml` markers), and `END.`. -/
def generateCore (r : PNode) (tbl : SymTable) : GenState :=
  let g : GenState := ⟨[], [], 0⟩
  let g := addLine g "PROGRAM Generated;".toList
  let g := addLine g []
  let g := genVarSection g tbl
  let g := addLine g "BEGIN".toList
  let g := { g with indentLevel := g.indentLevel + 1 }
  let rv := validateProgramNode g r
  let g := rv.2
  let g :=
    if rv.1 then
      r.children.foldl (fun g child =>
        if child.ntype ≠ "startuml_keyword".toList ∧
           child.ntype ≠ "enduml_keyword".toList then genVisit g child
        else g) g
    else g
  let g := { g with indentLevel := g.indentLevel - 1 }
  addLine g "END.".toList

/-- `PascalCodeGenerator.generate`, returning the produced text and the
final error list. -/
def generate (root : Option PNode) (tbl : SymTable) : List Char × List Diag :=
  match root with
  | none =>
      let g := genRecordError ⟨[], [], 0⟩ "Корневой узел AST отсутствует".toList (-1)
      ("Ошибка генерации: отсутствует AST дерево.".toList, g.errors)
  | some r =>
      let g := generateCore r tbl
      if g.errors ≠ [] then
        (("(* ОШИБКИ ГЕНЕРАЦИИ: ".toList ++
          joinSep "; ".toList (g.errors.map Diag.message) ++ " *)".toList) ++
          '\n' :: joinSep ['\n'] g.codeLines, g.errors)
      else (joinSep ['\n'] g.codeLines, g.errors)

/-! ## The request pipeline (`backend/app.py`, `generate_pascal`)

The pure control flow of the endpoint: scan, parse, analyze, generate,
short-circuiting with an empty `pascal_code` on the first stage whose
error list is non-empty.  The JSON wrapper, logging, the symbol/AST
dumps, and the missing-`plantuml` boundary check are outside this
embedding. -/

structure PipelineResult where
  success : Bool
  pascalCode : List Char
  errors : List Diag
  warnings : List Diag

/-- The semantic-stage issues of a source text, as the endpoint computes
them (scan, parse, analyze, then `get_all_issues` split by type). -/
def pipelineSemaIssues (plantuml : List Char) : List Diag :=
  let lex := scanFull plantuml
  let root := (parseFull lex.lexTable).1
  let r := semAnalyze root
  getAllIssues r.2.1 r.2.2

def generatePascalEndpoint (plantuml : List Char) : PipelineResult :=
  let lex := scanFull plantuml
  if lex.errors ≠ [] then
    ⟨false, [], lexDetailedErrors lex.errors, []⟩
  else
    let pr := parseFull lex.lexTable
    if pr.2.errors ≠ [] then
      ⟨false, [], parserDetailedErrors pr.2.errors, []⟩
    else
      let root := pr.1
      let issues := pipelineSemaIssues plantuml
      let allErrors := issues.filter (fun d => d.dtype = "error".toList)
      let allWarnings := issues.filter (fun d => d.dtype = "warning".toList)
      if allErrors ≠ [] then ⟨false, [], allErrors, allWarnings⟩
      else
        let sema := semAnalyze root
        let gen := generate (some root) sema.1
        let allErrors := allErrors ++ gen.2
        ⟨allErrors.isEmpty, gen.1, allErrors, allWarnings⟩

/-! ## Claim C1: the minimal round-trip -/

/-- The minimal program of the specification's round-trip property. -/
def c1Source : List Char := "@startuml start :Ввод: x; stop @enduml".toList

set_option maxRecDepth 10000 in
/-- C1.  The minimal program text `@startuml start :Ввод: x; stop
@enduml` scans with zero lexical errors, parses into a program node
having exactly one action child, and semantic analysis declares the
variable `x` with base type integer and `declared = true`. -/
theorem c1_minimal_roundtrip :
    (scanFull c1Source).errors = [] ∧
    ((parseFull (scanFull c1Source).lexTable).1.ntype = "program".toList ∧
     (parseFull (scanFull c1Source).lexTable).1.children.countP
        (fun n => n.ntype = "action_node".toList) = 1) ∧
    (∃ s, lookupSym (semAnalyze (parseFull (scanFull c1Source).lexTable).1).1 "x".toList =
        some s ∧ s.baseType = "integer".toList ∧ s.declared = true) :=
  ⟨by decide, ⟨by decide, by decide⟩,
   ⟨⟨"x".toList, "integer".toList, false, (0, 100), true, some 1, some 17⟩,
    by decide, by decide, by decide⟩⟩

/-! ## Claim C9: diagnostic positions -/

/-- A program whose action has an empty payload: the lexer emits `:`
directly followed by `;`, and `parse_action` then reports "Ожидается
содержимое действия после ':'" at the current token — the `;` token,
whose position (line 1, column 17) is known. -/
def c9Source : List Char := "@startuml start :; stop @enduml".toList

set_option maxRecDepth 10000 in
/-- C9.  The code, at a concrete input, produces a diagnostic with
`line = -1, pos = -1` for an error whose source position is known: the
parser formats the payload-expected error as `Ошибка (1, 17): ...` (with
a space after the comma), `get_detailed_errors` fails to parse that
shape with its `(\d+),(\d+)` pattern and falls back to `(-1, -1)` —
while the very same error message (and the `;` token it points at)
carries the known position `(1, 17)`.  This refutes the claim that no
diagnostic with a known source position is reported as `(-1, -1)`. -/
theorem c9_known_position_reported_as_minus_one :
    (scanFull c9Source).lexTable.get? 3 = some ⟨2, 3, [';'], 1, 17⟩ ∧
    (parseFull (scanFull c9Source).lexTable).2.errors.get? 0 =
      some "Ошибка (1, 17): Ожидается содержимое действия после ':'".toList ∧
    (parserDetailedErrors (parseFull (scanFull c9Source).lexTable).2.errors).get? 0 =
      some ⟨"error".toList, -1, -1,
        "Ошибка (1, 17): Ожидается содержимое действия после ':'".toList,
        "parser".toList⟩ :=
  ⟨by decide, by decide, by decide⟩

/-! ## Claim C3: `SymbolTable.define` invariants -/

/-- A sequence of `define` calls on one name. -/
def applyDefines (tbl : SymTable) (name : List Char) (calls : List DefineArgs) : SymTable :=
  calls.foldl (fun t a => defineSym t name a) tbl

/-- The four primitive type names. -/
def primTypeNames : List (List Char) :=
  ["integer", "real", "boolean", "string"].map String.toList

theorem defineStamp_baseType (e : Symbol) (a : DefineArgs) :
    (defineStamp e a).baseType = e.baseType := by
  unfold defineStamp
  repeat' split
  all_goals rfl

theorem defineStamp_isArray (e : Symbol) (a : DefineArgs) :
    (defineStamp e a).isArray = e.isArray := by
  unfold defineStamp
  repeat' split
  all_goals rfl

theorem defineUpdate_baseType (ex : Symbol) (a : DefineArgs) :
    (defineUpdate ex a).baseType = ex.baseType ∨
      (ex.baseType = "integer".toList ∧ (defineUpdate ex a).baseType = "real".toList) := by
  unfold defineUpdate
  simp only [defineStamp_baseType]
  cases hsz : a.arraySize <;>
    simp only [hsz] <;>
    split_ifs <;>
    simp_all

theorem defineUpdate_isArray (ex : Symbol) (a : DefineArgs) (h : ex.isArray = true) :
    (defineUpdate ex a).isArray = true := by
  unfold defineUpdate
  simp only [defineStamp_isArray]
  cases hsz : a.arraySize <;>
    simp only [hsz] <;>
    split_ifs <;>
    simp_all

theorem lookup_map_replace (tbl : SymTable) (name : List Char) (v : Symbol)
    (h : (lookupSym tbl name).isSome) :
    lookupSym (tbl.map fun kv => if kv.1 = name then (kv.1, v) else kv) name = some v := by
  induction tbl with
  | nil => simp [lookupSym, List.lookup] at h
  | cons kv rest ih =>
    rcases kv with ⟨k, w⟩
    by_cases hk : k = name
    · subst hk
      rw [List.map_cons]
      rw [if_pos (show (k, w).1 = k from rfl)]
      simp [lookupSym, List.lookup]
    · have hne : (name == k) = false := by
        simp only [beq_eq_false_iff_ne, ne_eq]
        intro he
        exact hk he.symm
      rw [List.map_cons]
      rw [if_neg (show ¬ (k, w).1 = name by simpa using hk)]
      simp only [lookupSym, List.lookup, hne] at h ⊢
      exact ih h

theorem lookup_defineSym_self (tbl : SymTable) (name : List Char) (a : DefineArgs)
    {s : Symbol} (h : lookupSym tbl name = some s) :
    ∃ s', lookupSym (defineSym tbl name a) name = some s' ∧
      (s'.baseType = s.baseType ∨
        (s.baseType = "integer".toList ∧ s'.baseType = "real".toList)) ∧
      (s.isArray = true → s'.isArray = true) := by
  unfold defineSym
  rw [h]
  exact ⟨defineUpdate s a,
    lookup_map_replace tbl name (defineUpdate s a) (by rw [h]; rfl),
    defineUpdate_baseType s a,
    fun harr => defineUpdate_isArray s a harr⟩

/-- C3.  Under every sequence of `SymbolTable.define` calls on one name,
the recorded `base_type` either stays unchanged or moves exactly from
`integer` to `real` (so it never narrows and never leaves the primitive
set once inside it), and `is_array`, once true, stays true; in
particular, integer evidence followed by real evidence leaves the final
declared type `real`. -/
theorem c3_define_invariants :
    (∀ (tbl : SymTable) (name : List Char) (calls : List DefineArgs) (s s' : Symbol),
       lookupSym tbl name = some s →
       lookupSym (applyDefines tbl name calls) name = some s' →
       ((s'.baseType = s.baseType ∨
           (s.baseType = "integer".toList ∧ s'.baseType = "real".toList)) ∧
        (s.isArray = true → s'.isArray = true) ∧
        (s.baseType ∈ primTypeNames → s'.baseType ∈ primTypeNames))) ∧
    ((lookupSym
        (applyDefines [] "x".toList
          [{ defaultArgs with varType := "integer".toList, declared := true },
           { defaultArgs with varType := "real".toList, declared := true }])
        "x".toList).map Symbol.baseType = some "real".toList) := by
  constructor
  · intro tbl name calls
    induction calls generalizing tbl with
    | nil =>
      intro s s' h1 h2
      rw [applyDefines, List.foldl_nil] at h2
      rw [h1] at h2
      cases h2
      exact ⟨Or.inl rfl, fun h => h, fun h => h⟩
    | cons a rest ih =>
      intro s s' h1 h2
      rw [applyDefines, List.foldl_cons] at h2
      obtain ⟨sm, hm, hrel, harr⟩ := lookup_defineSym_self tbl name a h1
      have h2' : lookupSym (applyDefines (defineSym tbl name a) name rest) name = some s' := h2
      obtain ⟨hrel2, harr2, _⟩ := ih (defineSym tbl name a) sm s' hm h2'
      refine ⟨?_, ?_, ?_⟩
      · rcases hrel2 with he | hw
        · rw [he]
          exact hrel
        · rcases hrel with he1 | hw1
          · right
            rw [← he1]
            exact hw
          · right
            exact ⟨hw1.1, hw.2⟩
      · intro hs
        exact harr2 (harr hs)
      · intro hs
        rcases hrel2 with he | hw
        · rw [he]
          rcases hrel with he1 | hw1
          · rw [he1]; exact hs
          · rw [hw1.2]; decide
        · rw [hw.2]; decide
  · decide

/-- Witness for C3: a symbol table holding `y : integer` (array),
updated by one `real` definition, widens to `real` and stays an
array. -/
def c3Table : SymTable :=
  [("y".toList, ⟨"y".toList, "integer".toList, true, (0, 100), false, none, none⟩)]

def c3Calls : List DefineArgs :=
  [{ defaultArgs with varType := "real".toList, declared := true }]

theorem c3_define_invariants_witness :
    (("real".toList : List Char) = "integer".toList ∨
      (("integer".toList : List Char) = "integer".toList ∧
       ("real".toList : List Char) = "real".toList)) ∧
    (true = true → true = true) ∧
    (("integer".toList : List Char) ∈ primTypeNames →
      ("real".toList : List Char) ∈ primTypeNames) :=
  c3_define_invariants.1 c3Table "y".toList c3Calls
    ⟨"y".toList, "integer".toList, true, (0, 100), false, none, none⟩
    ⟨"y".toList, "real".toList, true, (0, 100), true, none, none⟩
    (by decide) (by decide)

/-! ## Claim C10: pass-through of unrecognized action payloads -/

set_option maxRecDepth 4000 in
/-- Counterexample to C10 as stated: the generator does not emit an
unrecognized payload *verbatim* — `_generate_action` first strips it and
replaces `!=` with `<>`.  The payload `x != y` (which matches none of
the input/output/assignment shapes) is emitted as `x <> y;`, not as
`x != y;`. -/
theorem c10_counterexample :
    (genAction ⟨[], [], 0⟩ (some "x != y".toList) (-1)).codeLines = ["x <> y;".toList] ∧
    (genAction ⟨[], [], 0⟩ (some "x != y".toList) (-1)).errors = [] ∧
    "x <> y;".toList ≠ "x != y;".toList := by
  refine ⟨by decide, by decide, by decide⟩

/-- C10 (amended).  For every non-empty action payload whose
*transformed* text (stripped, `!=` rewritten to `<>`) is non-empty and
matches none of the input, output or assignment shapes,
`_generate_action` emits that transformed text followed by `;` as a
single statement line at the current indent, and records no
diagnostic. -/
theorem c10_action_passthrough (g : GenState) (p : List Char) (line : Int)
    (hp : p ≠ [])
    (h1 : "Ввод:".toList.isPrefixOf (pyReplace (pyStrip p) "!=".toList "<>".toList) = false)
    (h2 : "Вывод:".toList.isPrefixOf (pyReplace (pyStrip p) "!=".toList "<>".toList) = false)
    (h3 : simpleAssignMatch (pyReplace (pyStrip p) "!=".toList "<>".toList) = none)
    (h4 : pyReplace (pyStrip p) "!=".toList "<>".toList ≠ []) :
    genAction g (some p) line =
      { g with codeLines := g.codeLines ++
          [indentStr g.indentLevel ++
            pyReplace (pyStrip p) "!=".toList "<>".toList ++ [';']] } := by
  simp only [genAction]
  rw [if_neg hp]
  rw [if_neg (by rw [h1]; intro hc; cases hc)]
  rw [if_neg (by rw [h2]; intro hc; cases hc)]
  rw [h3]
  rw [if_pos h4]
  show addLine g (pyReplace (pyStrip p) "!=".toList "<>".toList ++ [';']) = _
  simp [addLine]

set_option maxRecDepth 4000 in
theorem c10_action_passthrough_witness :
    genAction ⟨[], [], 0⟩ (some "???".toList) (-1) =
      { (⟨[], [], 0⟩ : GenState) with codeLines := ([] : List (List Char)) ++
          [indentStr (0 : Int) ++
            pyReplace (pyStrip "???".toList) "!=".toList "<>".toList ++ [';']] } :=
  c10_action_passthrough ⟨[], [], 0⟩ "???".toList (-1)
    (by decide) (by decide) (by decide) (by decide) (by decide)

/-! ## Claim C6: totality of `generate` and the error-comment prefix -/

set_option maxRecDepth 4000 in
/-- Counterexample to C6 as stated: when the AST root is absent,
`generate` records a diagnostic (so the final diagnostic list is
non-empty) yet returns the fixed text `Ошибка генерации: отсутствует
AST дерево.`, which is *not* prefixed with the `(* ОШИБКИ ГЕНЕРАЦИИ:
... *)` summary comment. -/
theorem c6_counterexample :
    (generate none []).2 ≠ [] ∧
    (generate none []).1 = "Ошибка генерации: отсутствует AST дерево.".toList ∧
    "(* ОШИБКИ ГЕНЕРАЦИИ: ".toList.isPrefixOf (generate none []).1 = false := by
  refine ⟨by decide, by decide, by decide⟩

/-- C6 (amended).  `generate` is a total function into text and
diagnostics (in this embedding every operation it performs is total, so
no exception can escape it, matching the blanket `try/except`).  When
the root is absent it returns the fixed error text with one recorded
diagnostic; when a root is present and the final diagnostic list is
non-empty, the returned text is the single summary comment
concatenating all recorded messages, followed by a newline and the
best-effort generated body. -/
theorem c6_generate_total_and_prefixed :
    (∀ tbl : SymTable,
       generate none tbl =
         ("Ошибка генерации: отсутствует AST дерево.".toList,
          [⟨"error".toList, -1, -1, "Корневой узел AST отсутствует".toList,
            "generator".toList⟩])) ∧
    (∀ (r : PNode) (tbl : SymTable),
       (generate (some r) tbl).2 ≠ [] →
       ∃ body,
         (generate (some r) tbl).1 =
           ("(* ОШИБКИ ГЕНЕРАЦИИ: ".toList ++
             joinSep "; ".toList ((generate (some r) tbl).2.map Diag.message) ++
             " *)".toList) ++ '\n' :: body) := by
  constructor
  · intro tbl
    rfl
  · intro r tbl herr
    simp only [generate] at herr ⊢
    by_cases hcond : (generateCore r tbl).errors ≠ []
    · rw [if_pos hcond]
      exact ⟨_, rfl⟩
    · rw [if_neg hcond] at herr
      exact absurd herr hcond

theorem c6_generate_total_and_prefixed_witness :
    ∃ body,
      (generate (some ⟨"junk".toList, none, [], 0, 0⟩) []).1 =
        ("(* ОШИБКИ ГЕНЕРАЦИИ: ".toList ++
          joinSep "; ".toList
            ((generate (some ⟨"junk".toList, none, [], 0, 0⟩) []).2.map Diag.message) ++
          " *)".toList) ++ '\n' :: body :=
  c6_generate_total_and_prefixed.2 ⟨"junk".toList, none, [], 0, 0⟩ [] (by decide)

/-! ## Claim C7: malformed action payload -/

/-- A program whose single action payload is `???`, matching none of the
input/output/assignment shapes. -/
def c7Source : List Char := "@startuml start :???; stop @enduml".toList

set_option maxRecDepth 10000 in
/-- C7.  A payload matching none of the `Ввод:`/`Вывод:`/assignment
shapes makes `_analyze_action_content` record exactly one semantic error
(and touch nothing else in the analyzer state); on the concrete program
with payload `???` the pipeline's semantic stage reports exactly one
error diagnostic, generation is blocked, and the returned Pascal text is
empty. -/
theorem c7_malformed_payload_blocks_generation :
    (∀ (content0 : List Char) (line pos : Nat) (s : SemState),
      "Ввод:".toList.isPrefixOf (pyStrip content0) = false →
      "Вывод:".toList.isPrefixOf (pyStrip content0) = false →
      arrayAssignMatch (pyStrip content0) = none →
      simpleAssignMatch (pyStrip content0) = none →
      analyzeActionContent content0 line pos s =
        { s with errors := s.errors ++
            ["Ошибка ".toList ++ semPos line pos ++
             "Недопустимое содержимое блока: '".toList ++ pyStrip content0 ++
             "'. Разрешены только: 'Ввод: ...', 'Вывод: ...', или 'переменная := выражение'.".toList] }) ∧
    ((pipelineSemaIssues c7Source).filter
        (fun d => d.dtype = "error".toList)).length = 1 ∧
    (generatePascalEndpoint c7Source).success = false ∧
    (generatePascalEndpoint c7Source).pascalCode = [] := by
  refine ⟨?_, by decide, by decide, by decide⟩
  intro content0 line pos s h1 h2 h3 h4
  simp only [analyzeActionContent, h1, h2, h3, h4, Bool.false_eq_true, if_false, semErr]

set_option maxRecDepth 10000 in
/-- Witness for C7: the general branch theorem applied to the payload
`???` at position (1, 17) and an empty analyzer state. -/
theorem c7_malformed_payload_blocks_generation_witness :
    analyzeActionContent "???".toList 1 17 ⟨[], [], []⟩ =
      { (⟨[], [], []⟩ : SemState) with errors := ([] : List (List Char)) ++
          ["Ошибка ".toList ++ semPos 1 17 ++
           "Недопустимое содержимое блока: '".toList ++ pyStrip "???".toList ++
           "'. Разрешены только: 'Ввод: ...', 'Вывод: ...', или 'переменная := выражение'.".toList] } :=
  c7_malformed_payload_blocks_generation.1 "???".toList 1 17 ⟨[], [], []⟩
    (by decide) (by decide) (by decide) (by decide)

/-! ## Claim C2: counting-loop recognition -/

/-- A `condition_content` child carrying the text `i := 1 to 10`. -/
def c2CondNode : PNode :=
  ⟨"condition_content".toList, some "i := 1 to 10".toList, [], 1, 1⟩

/-- A pre-test loop node with that condition but no `while_body` child. -/
def c2BodylessWhile : PNode :=
  ⟨"while_loop_node".toList, none, [c2CondNode], 1, 1⟩

/-- A pre-test loop node with that condition and an (empty) body. -/
def c2GoodWhile : PNode :=
  ⟨"while_loop_node".toList, none,
    [c2CondNode, ⟨"while_body".toList, none, [], 1, 1⟩], 1, 1⟩

/-- C2, counterexample to the unconditional reading: a pre-test loop
node whose condition text is `i := 1 to 10` but which lacks a
`while_body` child makes `_generate_while` emit no code line at all (no
FOR construct) and record the missing-body error instead. -/
theorem c2_counterexample :
    (genWhile ⟨[], [], 0⟩ c2BodylessWhile).codeLines = [] ∧
    (genWhile ⟨[], [], 0⟩ c2BodylessWhile).errors =
      [⟨"error".toList, 1, -1, "Отсутствует тело цикла".toList, "generator".toList⟩] :=
  ⟨by decide, by decide⟩

/-- C2 (amended: the loop node must carry a `while_body` child).  For
every generator state and pre-test loop node whose condition text is
`i := 1 to 10` (the `!=` → `<>` rewrite is the identity on this text)
and which has a body child, `_generate_while` emits the bounded counting
header `FOR i := 1 TO 10 DO` — counter `i`, start `1`, ascending `TO`,
end `10` — directly followed by `BEGIN`, as the first lines it appends;
in particular no `WHILE` header is emitted for that node. -/
theorem c2_counting_loop (g : GenState) (nd b : PNode)
    (hcond : lastCondValue nd = "i := 1 to 10".toList)
    (hbody : lastChildOfType nd ("while_body".toList) = some b) :
    List.IsPrefix
      (g.codeLines ++ [indentStr g.indentLevel ++ "FOR i := 1 TO 10 DO".toList,
        indentStr g.indentLevel ++ "BEGIN".toList])
      (genWhile g nd).codeLines := by
  have hfor : forLoopMatch ("i := 1 to 10".toList) =
      some ("i".toList, "1".toList, "to".toList, "10".toList) := by decide
  have hline : ("FOR ".toList ++ "i".toList ++ " := ".toList ++
      processStringLiterals (pyStrip ("1".toList)) ++ [' '] ++ pyUpper ("to".toList) ++
      [' '] ++ processStringLiterals (pyStrip ("10".toList)) ++ " DO".toList) =
      "FOR i := 1 TO 10 DO".toList := by decide
  unfold genWhile
  simp only [genWhileF, hcond, hbody, hfor]
  rw [if_neg (by decide)]
  rw [← hline]
  exact genBlockChain g _ _ _ _ _

/-- Witness for C2: the amended theorem applied to a concrete loop node
with condition `i := 1 to 10` and an empty body, from the empty
generator state. -/
theorem c2_counting_loop_witness :
    List.IsPrefix
      (([] : List (List Char)) ++ [indentStr 0 ++ "FOR i := 1 TO 10 DO".toList,
        indentStr 0 ++ "BEGIN".toList])
      (genWhile ⟨[], [], 0⟩ c2GoodWhile).codeLines :=
  c2_counting_loop ⟨[], [], 0⟩ c2GoodWhile ⟨"while_body".toList, none, [], 1, 1⟩
    (by decide) rfl

/-! ## Claim C4: the `repeat while` lookahead -/

set_option maxHeartbeats 1000000 in
/-- C4.  When the collected word is `repeat` (case-insensitively) and
whitespace follows: if the speculatively peeked next word is `while`,
the scanner emits exactly one fused compound-keyword token (class 1,
value 12 = `repeatwhile`, text `repeat while`) carrying the line and
column of the start of `repeat`, records no error, and resumes scanning
right after the end of `while`; otherwise the speculative peek (which
inspects the source without moving the scanner) is discarded, `repeat`
alone is emitted as the keyword token of value 11 at the same start
position, and the scanner stands at the following word, which the next
iterations process normally. -/
theorem c4_repeat_while_lookahead (st : LexState)
    (h1 : pyLower (pyStrip (collectWord st).1) = "repeat".toList)
    (h2 : pyIsSpace (currentChar (collectWord st).2) = true) :
    (pyIsAlpha (currentChar (skipWs (collectWord st).2)) = true →
     pyStrip (pyLower (peekWord (skipWs (collectWord st).2).source
        (skipWs (collectWord st).2).position)) = "while".toList →
     (wordBranch st).lexTable =
        st.lexTable ++ [⟨1, 12, "repeat while".toList, st.lineNum, st.charPos⟩] ∧
     (wordBranch st).position =
        (skipWs (collectWord st).2).position +
          (peekWord (skipWs (collectWord st).2).source
            (skipWs (collectWord st).2).position).length ∧
     (wordBranch st).errors = st.errors) ∧
    (¬ (pyIsAlpha (currentChar (skipWs (collectWord st).2)) = true ∧
        pyStrip (pyLower (peekWord (skipWs (collectWord st).2).source
          (skipWs (collectWord st).2).position)) = "while".toList) →
     (wordBranch st).lexTable =
        st.lexTable ++ [⟨1, 11, pyStrip (collectWord st).1, st.lineNum, st.charPos⟩] ∧
     (wordBranch st).position = (skipWs (collectWord st).2).position ∧
     (wordBranch st).errors = st.errors) := by
  obtain ⟨hs1, -, -, -, -, -, -, ht1, he1⟩ := lexAdv_collectWord st
  obtain ⟨hs2, -, -, -, -, -, -, ht2, he2⟩ := lexAdv_skipWs (collectWord st).2
  have hfin :
      (finishWord (skipWs (collectWord st).2) (pyStrip (collectWord st).1)
          st.lineNum st.charPos).lexTable =
        st.lexTable ++ [⟨1, 11, pyStrip (collectWord st).1, st.lineNum, st.charPos⟩] ∧
      (finishWord (skipWs (collectWord st).2) (pyStrip (collectWord st).1)
          st.lineNum st.charPos).position = (skipWs (collectWord st).2).position ∧
      (finishWord (skipWs (collectWord st).2) (pyStrip (collectWord st).1)
          st.lineNum st.charPos).errors = st.errors := by
    have hk : keywordLookup (pyLower (pyStrip (collectWord st).1)) = some 11 := by
      rw [h1]
      decide
    simp only [finishWord, hk, makeToken]
    refine ⟨?_, trivial, ?_⟩
    · rw [ht2, ht1]
    · rw [he2, he1]
  constructor
  · intro h3 h4
    simp only [wordBranch]
    rw [if_pos ⟨h1, h2⟩, if_pos h3, if_pos h4]
    set st3 : LexState :=
      { skipWs (collectWord st).2 with position := (collectWord st).2.position } with hst3
    obtain ⟨hs4, -, -, -, -, -, -, ht4, he4⟩ := lexAdv_skipWs st3
    obtain ⟨hs5, -, -, -, -, -, -, ht5, he5⟩ := lexAdv_collectWord (skipWs st3)
    have hpos4 : (skipWs st3).position = (skipWs (collectWord st).2).position := by
      refine skipWs_pos_congr (collectWord st).2 st3 ?_ ?_
      · show (skipWs (collectWord st).2).source = (collectWord st).2.source
        exact hs2
      · rfl
    refine ⟨?_, ?_, ?_⟩
    · simp only [makeToken]
      rw [ht5, ht4, ht2, ht1]
    · show (collectWord (skipWs st3)).2.position = _
      rw [collectWord_pos, collectWord_fst_peek, hpos4]
      have hsrc : (skipWs st3).source = (skipWs (collectWord st).2).source := by
        rw [hs4]
      rw [hsrc]
    · simp only [makeToken]
      rw [he5, he4, he2, he1]
  · intro hnc
    simp only [wordBranch]
    rw [if_pos ⟨h1, h2⟩]
    by_cases h3 : pyIsAlpha (currentChar (skipWs (collectWord st).2)) = true
    · rw [if_pos h3, if_neg (fun h4 => hnc ⟨h3, h4⟩)]
      exact hfin
    · rw [if_neg h3]
      exact hfin

/-- A scanner state sitting at the start of `repeat while x`. -/
def c4State : LexState :=
  { source := "repeat while x".toList ++ [nulChar], position := 0, lineNum := 1,
    charPos := 0, identifiers := [], idCounter := 1, constants := [],
    constCounter := 1, lexTable := [], errors := [] }

set_option maxRecDepth 4000 in
/-- Witness for C4: the confirmed-lookahead case at a concrete state. -/
theorem c4_repeat_while_lookahead_witness :
    (wordBranch c4State).lexTable =
      c4State.lexTable ++ [⟨1, 12, "repeat while".toList, c4State.lineNum, c4State.charPos⟩] ∧
    (wordBranch c4State).position =
      (skipWs (collectWord c4State).2).position +
        (peekWord (skipWs (collectWord c4State).2).source
          (skipWs (collectWord c4State).2).position).length ∧
    (wordBranch c4State).errors = c4State.errors :=
  (c4_repeat_while_lookahead c4State (by decide) (by decide)).1 (by decide) (by decide)

/-! ## Claim C8: token coordinates -/

set_option maxRecDepth 10000 in
/-- C8, counterexample to the 1-based-position reading: the very first
lexeme `start`, starting in the first column of line 1, is emitted with
`pos = 0`, not `pos = 1` — `char_pos` starts at 0 and `advance` resets
it to 0 after a newline, so `pos` is a 0-based column. -/
theorem c8_counterexample :
    (scanFull ("start".toList)).lexTable = [⟨1, 2, "start".toList, 1, 0⟩] := by
  decide

set_option maxRecDepth 10000 in
/-- C8 (amended: `line` is 1-based, `pos` is a 0-based column, both
captured at the start of the lexeme).  Every token of every scan carries
`line ≥ 1`; the first-column lexeme of line 1 carries `pos = 0`; after a
newline the next lexeme carries `line = 2`, `pos = 0`. -/
theorem c8_line_one_based_pos_zero_based :
    (∀ (src : List Char) (t : Token), t ∈ (scanFull src).lexTable → 1 ≤ t.line) ∧
    (scanFull ("@startuml".toList ++ '\n' :: "start".toList)).lexTable =
      [⟨1, 1, "@startuml".toList, 1, 0⟩, ⟨1, 2, "start".toList, 2, 0⟩] := by
  constructor
  · intro src t ht
    exact (linesOk_scanFull src).2 t ht
  · decide

set_option maxRecDepth 10000 in
/-- Witness for C8: the 1-based-line bound applied to the one token of
the concrete scan of `start`. -/
theorem c8_line_one_based_pos_zero_based_witness :
    1 ≤ (Token.mk 1 2 "start".toList 1 0).line :=
  c8_line_one_based_pos_zero_based.1 ("start".toList) ⟨1, 2, "start".toList, 1, 0⟩
    (by decide)

/-! ## Claim C5: termination of scanning and parsing -/

/-- C5.  Scanning and parsing always terminate: every step of the
scanner's main loop taken on a not-yet-finished state strictly advances
the cursor (in particular the error-recovery skip makes progress), so
`scan` always reaches the end of its input — `current_char` is the NUL
sentinel after `scanFull`; and the parser's recursion — including the
top-level statement loop, which forcibly advances one token whenever a
statement parse yields nothing — needs at most the fuel
`parseFull` supplies, so the embedding's fuel guard is never hit
(`fuelOk` stays `true`) and `parse` never loops forever on any token
sequence. -/
theorem c5_scan_parse_terminate :
    (∀ st : LexState, currentChar st ≠ nulChar → st.position < (scanStep st).position) ∧
    (∀ input : List Char, currentChar (scanFull input) = nulChar) ∧
    (∀ tokens : List Token, (parseFull tokens).2.fuelOk = true) :=
  ⟨fun st h => scanStep_progress st h, scanFull_ends, parseFull_fuelOk⟩

/-- Witness for C5: the progress part applied to a concrete unfinished
scanner state. -/
theorem c5_scan_parse_terminate_witness :
    (scanInit ("a".toList)).position < (scanStep (scanInit ("a".toList))).position :=
  c5_scan_parse_terminate.1 (scanInit ("a".toList)) (by decide)

end FlowPas
